import Mathlib

/-!
# Verification of the tuyapi frame codec, cipher and session layer

This file gives a shallow embedding of the tuyapi library (message parser,
cipher, and the session/device logic of `index.js`) and proves properties of
the embedded code.

Conventions of the embedding:

* A Node.js `Buffer` is a `List Nat`, each element a byte (`< 256`).
* JS strings that carry protocol data are identified with their UTF-8 byte
  lists, so `Buffer.from(s)` and `buf.toString('utf8')` are identities.
* Platform primitives that the library calls but does not define
  (`node:crypto` AES/HMAC/MD5, `JSON.parse`/`JSON.stringify`, Base64) are
  parameters collected in a `Prims` structure; the algebraic facts they are
  known to satisfy are collected in `PrimLaws`.  Theorems quantify over any
  primitives satisfying the laws, and witnesses instantiate them with small
  executable stand-ins.
* JS exceptions are modelled with `Except JsErr`.
-/

namespace Tuya

/-- Kinds of JS exceptions thrown by the embedded code.  Distinct constructors
separate the distinct `throw` sites of the source. -/
inductive JsErr where
  /-- `Packet too short` -/
  | tooShort
  /-- `Prefix does not match` -/
  | prefixMismatch
  /-- `Suffix does not match` -/
  | suffixMismatch
  /-- `Packet missing payload` -/
  | payloadMissing
  /-- `CRC mismatch` -/
  | crcMismatch
  /-- `HMAC mismatch` -/
  | hmacMismatch
  /-- A Node `RangeError` from an out-of-bounds `readUInt32BE`/`readInt32BE`. -/
  | rangeError
  /-- `Command byte not defined.` -/
  | commandUndefined
  /-- `Decrypt failed` (cipher.js / cipher.ts) -/
  | decryptFailed
  /-- error escaping `cipher.final()` when auto-padding is disabled and the
  input is not block aligned -/
  | blockAlign
  /-- a JS `TypeError`, e.g. from `'data' in res` when `res` is a primitive -/
  | typeError
  deriving DecidableEq, Repr

/-- All elements of the list are bytes. -/
def isBytes (b : List Nat) : Prop := ∀ x ∈ b, x < 256

instance (b : List Nat) : Decidable (isBytes b) := by
  unfold isBytes; infer_instance

/-- `buffer.readUInt32BE(offset)` with a `Nat` offset; Node throws a
`RangeError` unless `0 ≤ offset ≤ len - 4`. -/
def readU32 (b : List Nat) (o : Nat) : Except JsErr Nat :=
  match (b.drop o).take 4 with
  | [b0, b1, b2, b3] => .ok (b0 * 2 ^ 24 + b1 * 2 ^ 16 + b2 * 2 ^ 8 + b3)
  | _ => .error .rangeError

/-- `buffer.readUInt32BE(offset)` at a possibly negative (JS) offset. -/
def readU32I (b : List Nat) (o : Int) : Except JsErr Nat :=
  if 0 ≤ o then readU32 b o.toNat else .error .rangeError

/-- `buffer.readInt32BE(offset)`: the same four bytes, interpreted as a signed
big-endian 32-bit integer. -/
def readI32 (b : List Nat) (o : Int) : Except JsErr Int := do
  let v ← readU32I b o
  return if v < 2 ^ 31 then (v : Int) else (v : Int) - 2 ^ 32

/-- Big-endian unsigned 32-bit byte encoding (`writeUInt32BE`). -/
def u32be (n : Nat) : List Nat :=
  [n / 2 ^ 24 % 256, n / 2 ^ 16 % 256, n / 2 ^ 8 % 256, n % 256]

/-- JS `ToInt32` (the result of `x & 0xffffffff` on a JS number). -/
def toI32 (i : Int) : Int :=
  let m := i % 2 ^ 32
  if m < 2 ^ 31 then m else m - 2 ^ 32

/-- `writeInt32BE`: two's-complement big-endian bytes of an int32. -/
def i32be (i : Int) : List Nat := u32be ((i % 2 ^ 32).toNat)

/-- Clamp a JS index per `TypedArray.prototype.subarray`: negative counts from
the end, then clamp into `[0, len]`. -/
def jsIdx (len : Nat) (i : Int) : Nat :=
  if i < 0 then ((len : Int) + i).toNat.min len else i.toNat.min len

/-- `buffer.slice(start, end)` (Node `Buffer#slice` = `subarray`, copied):
negative indices count from the end, the result is empty when the normalized
start is at or past the normalized end. -/
def jsSlice (b : List Nat) (s e : Int) : List Nat :=
  let s' := jsIdx b.length s
  let e' := jsIdx b.length e
  (b.take e').drop s'

/-- `buffer.slice(start)` with the end defaulted to the length. -/
def jsSliceFrom (b : List Nat) (s : Int) : List Nat :=
  jsSlice b s b.length

/-- First index at which `pat` occurs as a contiguous sub-list of `b`
(`buffer.indexOf(pat)`), or `none`. -/
def firstIdx (b pat : List Nat) : Option Nat :=
  match b with
  | [] => if pat = [] then some 0 else none
  | _ :: tl =>
    if b.take pat.length = pat then some 0
    else (firstIdx tl pat).map (· + 1)

/-- `buf.toString('hex')`, one byte to two nibbles; kept as a nibble list,
which is injective on byte lists. -/
def hexOf (b : List Nat) : List Nat :=
  b.flatMap fun x => [x % 256 / 16, x % 16]

/-- ASCII bytes of the literal version strings `"3.1"` … `"3.5"`. -/
def verBytes : Nat → List Nat := fun d => [0x33, 0x2E, 0x30 + d]

/-- Protocol versions (from `version.toString()`; the constructor admits the
five released protocol numbers). -/
inductive Ver where
  | v31 | v32 | v33 | v34 | v35
  deriving DecidableEq, Repr

/-- The `this.version` string of a cipher/parser, as bytes. -/
def Ver.bytes : Ver → List Nat
  | .v31 => verBytes 1
  | .v32 => verBytes 2
  | .v33 => verBytes 3
  | .v34 => verBytes 4
  | .v35 => verBytes 5

/-! ## Basic lemmas about the buffer model -/

theorem u32be_length (n : Nat) : (u32be n).length = 4 := rfl

theorem i32be_length (i : Int) : (i32be i).length = 4 := rfl

theorem u32be_isBytes (n : Nat) : isBytes (u32be n) := by
  intro x hx
  simp only [u32be, List.mem_cons, List.not_mem_nil, or_false] at hx
  rcases hx with h | h | h | h <;> subst h <;> exact Nat.mod_lt _ (by norm_num)

theorem readU32_append_u32be (n : Nat) (rest : List Nat) :
    readU32 (u32be n ++ rest) 0 = .ok (n % 2 ^ 32) := by
  simp only [readU32, u32be, List.cons_append, List.drop_zero, List.take_succ_cons,
    List.take_zero]
  congr 1
  omega

theorem readU32_of_take_drop (b : List Nat) (o : Nat) (b0 b1 b2 b3 : Nat)
    (h : (b.drop o).take 4 = [b0, b1, b2, b3]) :
    readU32 b o = .ok (b0 * 2 ^ 24 + b1 * 2 ^ 16 + b2 * 2 ^ 8 + b3) := by
  simp [readU32, h]

/-- Reading inside the first component of an append. -/
theorem readU32_append_left (xs ys : List Nat) (o : Nat) (h : o + 4 ≤ xs.length) :
    readU32 (xs ++ ys) o = readU32 xs o := by
  have hdrop : (xs ++ ys).drop o = xs.drop o ++ ys.drop (o - xs.length) :=
    List.drop_append_eq_append_drop
  have hdrop2 : ys.drop (o - xs.length) = ys.drop 0 := by
    congr 1; omega
  rw [readU32, readU32, hdrop, hdrop2, List.drop_zero, List.take_append_eq_append_take]
  have hlen : 4 - (xs.drop o).length = 0 := by
    simp only [List.length_drop]; omega
  rw [hlen, List.take_zero, List.append_nil]

/-- Reading past the first component of an append. -/
theorem readU32_append_right (xs ys : List Nat) (o : Nat) (h : xs.length ≤ o) :
    readU32 (xs ++ ys) o = readU32 ys (o - xs.length) := by
  have hdrop : (xs ++ ys).drop o = ys.drop (o - xs.length) := by
    rw [List.drop_append_eq_append_drop, List.drop_eq_nil_of_le (by omega), List.nil_append]
  simp [readU32, hdrop]

/-! ## JSON values

JS values that travel through `JSON.stringify`/`JSON.parse`.  Object keys and
strings are byte lists (UTF-8). -/

inductive J where
  | jnull
  | jbool (b : Bool)
  | jnum (n : Int)
  | jstr (s : List Nat)
  | jarr (elems : List J)
  | jobj (fields : List (List Nat × J))

/-- ASCII `"data"`. -/
def keyData : List Nat := [0x64, 0x61, 0x74, 0x61]

/-- ASCII `"t"`. -/
def keyT : List Nat := [0x74]

/-- Property lookup on an object's field list. -/
def jLookup (fields : List (List Nat × J)) (k : List Nat) : Option J :=
  match fields with
  | [] => none
  | (k', v) :: tl => if k' = k then some v else jLookup tl k

/-- Property assignment `obj[k] = v`.  On a non-object the assignment is a
sloppy-mode no-op (primitives) or an expando property invisible to JSON
(arrays); assigning JS `undefined` (`v = none`) is likewise invisible to
JSON, so both leave the value unchanged. -/
def jSetField (j : J) (k : List Nat) (v : Option J) : J :=
  match j, v with
  | .jobj fields, some vv =>
    if (jLookup fields k).isSome then
      .jobj (fields.map fun p => if p.1 = k then (p.1, vv) else p)
    else
      .jobj (fields ++ [(k, vv)])
  | _, _ => j

/-- The `data`/`t` envelope unwrapping shared by `_decrypt34`/`_decrypt35`:

```js
const res = JSON.parse(result);
if ('data' in res) {
  const resData = res.data;
  resData.t = res.t;
  return resData;
}
return res;
```

`'data' in res` throws a `TypeError` when `res` is a primitive (JS `in` needs
an object); arrays are objects without a `data` property. -/
def unwrapEnvelope (res : J) : Except JsErr J :=
  match res with
  | .jobj fields =>
    match jLookup fields keyData with
    | some d => .ok (jSetField d keyT (jLookup fields keyT))
    | none => .ok res
  | .jarr _ => .ok res
  | _ => .error .typeError

/-! ## Platform primitives

`node:crypto`, `JSON` and Base64 are runtime primitives the library calls but
does not define.  They are parameters of the embedding; `PrimLaws` collects
the facts about the real primitives the proofs rely on.  The `crc32` field
additionally stands for the library's own `lib/crc.js`, which is required by
the message parser but absent from the sources; it is modelled from the spec:
a CRC-32 over the given bytes, returned — like the JS implementation, whose
final XOR is a 32-bit JS bitwise operation — as a signed 32-bit integer. -/
structure Prims where
  /-- AES-128-ECB encryption of a block-aligned byte string (key, data). -/
  ecbEnc : List Nat → List Nat → List Nat
  /-- AES-128-ECB decryption of a block-aligned byte string (key, data). -/
  ecbDec : List Nat → List Nat → List Nat
  /-- AES-128-GCM encryption, ciphertext only (key, iv, plaintext). -/
  gcmEnc : List Nat → List Nat → List Nat → List Nat
  /-- AES-128-GCM decryption, plaintext only (key, iv, ciphertext). -/
  gcmDec : List Nat → List Nat → List Nat → List Nat
  /-- AES-128-GCM authentication tag (key, iv, aad, ciphertext). -/
  gcmTag : List Nat → List Nat → List Nat → List Nat → List Nat
  /-- HMAC-SHA256 (key, data). -/
  hmacSha256 : List Nat → List Nat → List Nat
  /-- `TuyaCipher.md5`: hex characters 8..24 of the MD5 of the input. -/
  md5sig : List Nat → List Nat
  /-- Modelled from the spec: CRC-32 of the bytes (`lib/crc.js` is not in
  `src/`; only its callers are), as a signed 32-bit value. -/
  crc32 : List Nat → Int
  /-- `JSON.stringify`, as UTF-8 bytes. -/
  jsonStringify : J → List Nat
  /-- `JSON.parse`; `none` when the parse throws. -/
  jsonParse : List Nat → Option J
  /-- Base64 encoding, as ASCII bytes. -/
  b64enc : List Nat → List Nat
  /-- Base64 decoding (total: Node ignores malformed tails). -/
  b64dec : List Nat → List Nat

/-- Facts about the real platform primitives used by the proofs.  The
roundtrip laws are stated on byte lists (`Buffer` contents are always bytes).
Facts about `JSON.parse`/`JSON.stringify` at particular values (e.g. that
parse inverts stringify) appear as hypotheses of the individual theorems
instead, so witnesses can discharge them on concrete data. -/
structure PrimLaws (pr : Prims) : Prop where
  ecb_roundtrip : ∀ k b, isBytes b → 16 ∣ b.length → pr.ecbDec k (pr.ecbEnc k b) = b
  ecbEnc_length : ∀ k b, (pr.ecbEnc k b).length = b.length
  ecbDec_length : ∀ k b, (pr.ecbDec k b).length = b.length
  ecbEnc_isBytes : ∀ k b, isBytes (pr.ecbEnc k b)
  gcm_roundtrip : ∀ k iv pt, isBytes pt → pr.gcmDec k iv (pr.gcmEnc k iv pt) = pt
  gcmEnc_length : ∀ k iv pt, (pr.gcmEnc k iv pt).length = pt.length
  gcmEnc_isBytes : ∀ k iv pt, isBytes (pr.gcmEnc k iv pt)
  gcmTag_length : ∀ k iv aad ct, (pr.gcmTag k iv aad ct).length = 16
  gcmTag_isBytes : ∀ k iv aad ct, isBytes (pr.gcmTag k iv aad ct)
  hmac_length : ∀ k b, (pr.hmacSha256 k b).length = 32
  hmac_isBytes : ∀ k b, isBytes (pr.hmacSha256 k b)
  md5sig_length : ∀ b, (pr.md5sig b).length = 16
  md5sig_isBytes : ∀ b, isBytes (pr.md5sig b)
  crc32_int32 : ∀ b, toI32 (pr.crc32 b) = pr.crc32 b
  b64_roundtrip : ∀ b, isBytes b → pr.b64dec (pr.b64enc b) = b
  b64enc_isBytes : ∀ b, isBytes (pr.b64enc b)

/-! ## The cipher (lib/cipher.js / src/lib/cipher.ts)

`TuyaCipher` holds the local key, the stringified protocol version, and a
`sessionKey` that starts out `null`. -/

structure CipherState where
  key : List Nat
  version : Ver
  sessionKey : Option (List Nat)
  deriving DecidableEq, Repr

/-- `TuyaCipher.getKey`: `sessionKey === null ? key : sessionKey`. -/
def CipherState.getKey (st : CipherState) : List Nat :=
  st.sessionKey.getD st.key

/-- `TuyaCipher.setSessionKey`. -/
def CipherState.setSessionKey (st : CipherState) (sk : Option (List Nat)) : CipherState :=
  { st with sessionKey := sk }

/-- `TuyaCipher.hmac`: HMAC-SHA256 under the active key. -/
def cipherHmac (pr : Prims) (st : CipherState) (data : List Nat) : List Nat :=
  pr.hmacSha256 st.getKey data

/-- PKCS#7 padding appended by `createCipheriv('aes-128-ecb', …)` with
auto-padding left enabled. -/
def pkcs7pad (b : List Nat) : List Nat :=
  b ++ List.replicate (16 - b.length % 16) (16 - b.length % 16)

/-- PKCS#7 un-padding checked by `createDecipheriv` with auto-padding
enabled; `none` when OpenSSL rejects the padding. -/
def pkcs7unpad (b : List Nat) : Option (List Nat) :=
  match b.getLast? with
  | none => none
  | some p =>
    if 1 ≤ p ∧ p ≤ 16 ∧ p ≤ b.length ∧ (b.drop (b.length - p)).all (· = p) then
      some (b.take (b.length - p))
    else
      none

/-- ECB decryption with auto-padding enabled: fails on empty or non-aligned
input or invalid padding. -/
def ecbDecPad (pr : Prims) (k ct : List Nat) : Option (List Nat) :=
  if ct.length % 16 = 0 ∧ ct.length ≠ 0 then pkcs7unpad (pr.ecbDec k ct) else none

/-- `TuyaCipher._encryptPre34`: AES-128-ECB with auto-padding; Base64 output
unless `base64 === false`. -/
def encryptPre34 (pr : Prims) (st : CipherState) (data : List Nat) (base64 : Bool) :
    List Nat :=
  let ct := pr.ecbEnc st.getKey (pkcs7pad data)
  if base64 then pr.b64enc ct else ct

/-- `TuyaCipher._encrypt34`: AES-128-ECB with auto-padding disabled;
`cipher.final()` throws unless the input is block aligned. -/
def encrypt34 (pr : Prims) (st : CipherState) (data : List Nat) :
    Except JsErr (List Nat) :=
  if data.length % 16 = 0 then .ok (pr.ecbEnc st.getKey data)
  else .error .blockAlign

/-- `TuyaCipher._encrypt35`: AES-128-GCM.  `nowIV` stands for the
time-derived IV `Buffer.from((Date.now() * 10).toString().slice(0, 12))`
used when no IV option is given. -/
def encrypt35 (pr : Prims) (st : CipherState) (data : List Nat)
    (iv aad : Option (List Nat)) (nowIV : List Nat) : List Nat :=
  let localIV := match iv with
    | some v => jsSlice v 0 12
    | none => nowIV
  match aad with
  | none => pr.gcmEnc st.getKey localIV data
  | some a =>
    let ct := pr.gcmEnc st.getKey localIV data
    localIV ++ ct ++ pr.gcmTag st.getKey localIV a ct ++ [0x00, 0x00, 0x99, 0x66]

/-- `TuyaCipher.encrypt` version dispatch.  `base64` is `options.base64`
(`none` when the option is absent); the pre-3.4 branch returns raw bytes
exactly when `options.base64 === false`. -/
def cipherEncrypt (pr : Prims) (st : CipherState) (data : List Nat)
    (base64 : Option Bool) (iv aad : Option (List Nat)) (nowIV : List Nat) :
    Except JsErr (List Nat) :=
  match st.version with
  | .v34 => encrypt34 pr st data
  | .v35 => .ok (encrypt35 pr st data iv aad nowIV)
  | _ => .ok (encryptPre34 pr st data (base64 ≠ some false))

/-- Result of `TuyaCipher.decrypt`: a parsed JSON object, a JS string, or a
raw `Buffer`. -/
inductive DecVal where
  | json (j : J)
  | str (s : List Nat)
  | raw (b : List Nat)

/-- `TuyaCipher._decryptPre34`. -/
def decryptPre34 (pr : Prims) (st : CipherState) (data : List Nat) :
    Except JsErr DecVal :=
  let step :=
    if data.take 3 = st.version.bytes then
      if st.version = .v33 ∨ st.version = .v32 then (jsSliceFrom data 15, false)
      else (jsSliceFrom data 19, true)
    else (data, false)
  let ct := if step.2 then pr.b64dec step.1 else step.1
  match ecbDecPad pr st.getKey ct with
  | none => .error .decryptFailed
  | some result =>
    match pr.jsonParse result with
    | some j => .ok (.json j)
    | none => .ok (.str result)

/-- The shared tail of `_decrypt34`/`_decrypt35`: optionally strip the 15-byte
version header, JSON-parse, unwrap the `data` envelope; any throw inside the
`try` returns the (possibly stripped) buffer. -/
def decryptPost (pr : Prims) (st : CipherState) (result : List Nat) : DecVal :=
  let result := if result.take 3 = st.version.bytes then jsSliceFrom result 15 else result
  match pr.jsonParse result with
  | none => .raw result
  | some res =>
    match unwrapEnvelope res with
    | .ok j => .json j
    | .error _ => .raw result

/-- The padding removal of `_decrypt34`:
`result.slice(0, result.length - result[result.length - 1])` with JS `slice`
semantics (on an empty buffer the end index is `NaN`, so the slice is
empty). -/
def strip34 (r0 : List Nat) : List Nat :=
  match r0.getLast? with
  | none => []
  | some last => jsSlice r0 0 ((r0.length : Int) - (last : Int))

/-- `TuyaCipher._decrypt34`: ECB with auto-padding disabled (`final()`
throws unless the input is block aligned), then the unvalidated padding
removal. -/
def decrypt34 (pr : Prims) (st : CipherState) (data : List Nat) :
    Except JsErr DecVal :=
  if data.length % 16 = 0 then
    .ok (decryptPost pr st (strip34 (pr.ecbDec st.getKey data)))
  else
    .error .decryptFailed

/-- `TuyaCipher._decrypt35`: split `header ++ iv ++ body ++ tag`, AES-GCM
decrypt with the header as AAD, drop the 32-bit return code. -/
def decrypt35 (pr : Prims) (st : CipherState) (data : List Nat) :
    Except JsErr DecVal :=
  let header := jsSlice data 0 14
  let iv := jsSlice data 14 26
  let tag := jsSliceFrom data ((data.length : Int) - 16)
  let body := jsSlice data 26 ((data.length : Int) - 16)
  if tag = pr.gcmTag st.getKey iv header body then
    let result := jsSliceFrom (pr.gcmDec st.getKey iv body) 4
    .ok (decryptPost pr st result)
  else
    .error .decryptFailed

/-- `TuyaCipher.decrypt` version dispatch. -/
def cipherDecrypt (pr : Prims) (st : CipherState) (data : List Nat) :
    Except JsErr DecVal :=
  match st.version with
  | .v34 => decrypt34 pr st data
  | .v35 => decrypt35 pr st data
  | _ => decryptPre34 pr st data

/-! ## The message parser (lib/message-parser.js / src/lib/message-parser.ts) -/

/-- `Object.values(CommandType)` in declaration order (aliases repeat 3/4/5). -/
def commandValues : List Nat :=
  [0, 1, 2, 3, 3, 4, 4, 5, 5, 6, 7, 8, 9, 10, 11, 12, 13, 14, 16, 17, 18, 19,
   20, 35, 40, 240, 241, 242, 243, 244, 245, 246, 247, 248, 249, 250, 251, 252]

/-- The `options.data` argument of `encode`: `Buffer | String | Object`. -/
inductive EncData where
  | buf (b : List Nat)
  | str (s : List Nat)
  | obj (j : J)

/-- The Buffer/String/Object conversion at the top of `encode`. -/
def encDataBytes (pr : Prims) : EncData → List Nat
  | .buf b => b
  | .str s => s
  | .obj j => pr.jsonStringify j

/-- ASCII `"data="`. -/
def asciiDataEq : List Nat := [0x64, 0x61, 0x74, 0x61, 0x3D]

/-- ASCII `"||lpv="`. -/
def asciiLpvEq : List Nat := [0x7C, 0x7C, 0x6C, 0x70, 0x76, 0x3D]

/-- ASCII `"||"`. -/
def asciiBars : List Nat := [0x7C, 0x7C]

/-- `MessageParser._encodePre34`. -/
def encodePre34 (pr : Prims) (st : CipherState) (cmd seq : Nat) (encrypted : Bool)
    (data : List Nat) : List Nat :=
  let payload :=
    if st.version = .v33 ∨ st.version = .v32 then
      let p := encryptPre34 pr st data false
      if cmd ≠ 10 ∧ cmd ≠ 18 then st.version.bytes ++ List.replicate 12 0 ++ p else p
    else if encrypted then
      let p := encryptPre34 pr st data true
      let sig := pr.md5sig
        (asciiDataEq ++ p ++ asciiLpvEq ++ st.version.bytes ++ asciiBars ++ st.key)
      st.version.bytes ++ sig ++ p
    else data
  let head := u32be 0x000055AA ++ u32be seq ++ u32be cmd ++ u32be (payload.length + 8)
  let crc := toI32 (pr.crc32 (head ++ payload))
  head ++ payload ++ i32be crc ++ u32be 0x0000AA55

/-- The command set that gets no 15-byte version header in v3.4/v3.5
(`DP_QUERY`, `HEART_BEAT`, `DP_QUERY_NEW`, `SESS_KEY_NEG_START`,
`SESS_KEY_NEG_FINISH`, `DP_REFRESH`). -/
def headerExempt (cmd : Nat) : Prop :=
  cmd = 10 ∨ cmd = 9 ∨ cmd = 16 ∨ cmd = 3 ∨ cmd = 5 ∨ cmd = 18

instance (cmd : Nat) : Decidable (headerExempt cmd) := by
  unfold headerExempt; infer_instance

/-- The caller-side pre-padding of `_encode34`:
`padding = 0x10 - (payload.length & 0xf)` bytes, each equal to `padding`
(`Buffer.alloc(len + padding, padding)`). -/
def pad34 (payload : List Nat) : List Nat :=
  payload ++ List.replicate (16 - payload.length % 16) (16 - payload.length % 16)

/-- `MessageParser._encode34`. -/
def encode34 (pr : Prims) (st : CipherState) (cmd seq : Nat) (data : List Nat) :
    Except JsErr (List Nat) := do
  let payload :=
    if ¬headerExempt cmd then st.version.bytes ++ List.replicate 12 0 ++ data else data
  let padded := pad34 payload
  let ct ← encrypt34 pr st padded
  let head := u32be 0x000055AA ++ u32be seq ++ u32be cmd ++ u32be (ct.length + 0x24)
  let hm := cipherHmac pr st (head ++ ct)
  return head ++ ct ++ hm ++ u32be 0x0000AA55

/-- `MessageParser._encode35`. -/
def encode35 (pr : Prims) (st : CipherState) (cmd seq : Nat) (data : List Nat)
    (nowIV : List Nat) : List Nat :=
  let payload :=
    if ¬headerExempt cmd then st.version.bytes ++ List.replicate 12 0 ++ data else data
  let header := u32be 0x00006699 ++ [0x00, 0x00] ++ u32be seq ++ u32be cmd ++
    u32be (payload.length + 28)
  header ++ encrypt35 pr st payload none (some (jsSlice header 4 18)) nowIV

/-- `MessageParser.encode`: command check, data conversion, version dispatch. -/
def encode (pr : Prims) (st : CipherState) (data : EncData) (encrypted : Bool)
    (cmd seq : Nat) (nowIV : List Nat) : Except JsErr (List Nat) := do
  if cmd ∉ commandValues then throw .commandUndefined
  let bytes := encDataBytes pr data
  match st.version with
  | .v34 => encode34 pr st cmd seq bytes
  | .v35 => return encode35 pr st cmd seq bytes nowIV
  | _ => return encodePre34 pr st cmd seq encrypted bytes

/-- A packet as returned by `parsePacket` (payload still raw bytes). -/
structure RawPacket where
  payload : List Nat
  leftover : Option (List Nat)
  commandByte : Option Nat
  sequenceN : Option Nat
  deriving DecidableEq, Repr

/-- Suffix marker `0x0000AA55` as bytes. -/
def sufAA55 : List Nat := [0x00, 0x00, 0xAA, 0x55]

/-- Suffix marker `0x00009966` as bytes. -/
def suf9966 : List Nat := [0x00, 0x00, 0x99, 0x66]

/-- The suffix scan of `parsePacket`: `buffer.indexOf('0000AA55', 0, 'hex')`,
falling back to `'00009966'`, `-1` when neither occurs. -/
def suffixScan (b : List Nat) : Int :=
  match firstIdx b sufAA55 with
  | some i => (i : Int)
  | none =>
    match firstIdx b suf9966 with
    | some i => (i : Int)
    | none => -1

/-- The leftover split of `parsePacket`: trim the buffer at the scanned
suffix, everything after it is `leftover`. -/
def parseSplit (buffer : List Nat) : List Nat × Option (List Nat) :=
  if suffixScan buffer ≠ (buffer.length : Int) - 4 then
    (jsSlice buffer 0 (suffixScan buffer + 4),
      some (jsSliceFrom buffer (suffixScan buffer + 4)))
  else
    (buffer, none)

/-- The three header reads of the `0x0000AA55` suffix branch (offsets 4, 8,
12) and the payload-size check. -/
def readHeaderAA55 (buffer : List Nat) : Except JsErr (Nat × Nat × Nat) :=
  match readU32 buffer 4, readU32 buffer 8, readU32 buffer 12 with
  | .error e, _, _ => .error e
  | _, .error e, _ => .error e
  | _, _, .error e => .error e
  | .ok s, .ok c, .ok p =>
    if (buffer.length : Int) - 8 < (p : Int) then .error .payloadMissing
    else .ok (s, c, p)

/-- The three header reads of the `0x00009966` suffix branch (offsets 6, 10,
14; the size gains 14 extra bytes) and the payload-size check. -/
def readHeader9966 (buffer : List Nat) : Except JsErr (Nat × Nat × Nat) :=
  match readU32 buffer 6, readU32 buffer 10, readU32 buffer 14 with
  | .error e, _, _ => .error e
  | _, .error e, _ => .error e
  | _, _, .error e => .error e
  | .ok s, .ok c, .ok p0 =>
    if (buffer.length : Int) - 8 < ((p0 + 14 : Nat) : Int) then .error .payloadMissing
    else .ok (s, c, p0 + 14)

/-- The body of `parsePacket` after the leftover split: all remaining reads
of the source operate on the trimmed buffer.  Yields
`(payload, commandByte, sequenceN)`. -/
def parseBody (pr : Prims) (st : CipherState) (buffer : List Nat) :
    Except JsErr (List Nat × Nat × Nat) :=
  match readU32I buffer ((buffer.length : Int) - 4) with
  | .error e => .error e
  | .ok suffix =>
    if suffix ≠ 0x0000AA55 ∧ suffix ≠ 0x00009966 then .error .suffixMismatch
    else
      match (if suffix = 0x0000AA55 then readHeaderAA55 buffer else readHeader9966 buffer) with
      | .error e => .error e
      | .ok (sequenceN, commandByte, payloadSize) =>
        let ps : Int := (payloadSize : Int)
        let pfd := commandByte = 0 ∨ commandByte = 19 ∨ commandByte = 35
        match readU32 buffer 16 with
        | .error e => .error e
        | .ok returnCode =>
          if st.version = .v35 then
            match readU32 (jsSlice buffer 6 10) 0, readU32 (jsSlice buffer 10 14) 0 with
            | .error e, _ => .error e
            | _, .error e => .error e
            | .ok s2, .ok c2 => .ok (jsSlice buffer 4 (4 + ps), c2, s2)
          else
            let payload :=
              if returnCode &&& 0xFFFFFF00 ≠ 0 then
                if st.version = .v34 ∧ ¬pfd then jsSlice buffer 16 (16 + ps - 0x24)
                else if st.version = .v35 ∧ ¬pfd then jsSlice buffer 16 (16 + ps - 0x24)
                else jsSlice buffer 16 (16 + ps - 8)
              else if st.version = .v34 ∧ ¬pfd then jsSlice buffer 20 (16 + ps - 0x24)
              else if st.version = .v35 ∧ ¬pfd then jsSlice buffer 20 (16 + ps - 0x24)
              else jsSlice buffer 20 (16 + ps - 8)
            if st.version = .v34 ∧ ¬pfd then
              if hexOf (jsSlice buffer (16 + ps - 0x24) ((buffer.length : Int) - 4))
                  ≠ hexOf (cipherHmac pr st (jsSlice buffer 0 (16 + ps - 0x24))) then
                .error .hmacMismatch
              else
                .ok (payload, commandByte, sequenceN)
            else if st.version ≠ .v35 then
              match readI32 buffer (16 + ps - 8) with
              | .error e => .error e
              | .ok expectedCrc =>
                if expectedCrc ≠ pr.crc32 (jsSlice buffer 0 (ps + 8)) then
                  .error .crcMismatch
                else
                  .ok (payload, commandByte, sequenceN)
            else
              .ok (payload, commandByte, sequenceN)

/-- `MessageParser.parsePacket`. -/
def parsePacket (pr : Prims) (st : CipherState) (buffer : List Nat) :
    Except JsErr RawPacket :=
  if buffer.length < 24 then .error .tooShort
  else
    match readU32 buffer 0 with
    | .error e => .error e
    | .ok pfx =>
      if pfx ≠ 0x000055AA ∧ pfx ≠ 0x00006699 then .error .prefixMismatch
      else
        let split := parseSplit buffer
        match parseBody pr st split.1 with
        | .error e => .error e
        | .ok body => .ok ⟨body.1, split.2, some body.2.1, some body.2.2⟩

/-- Result of `getPayload`: `false` for an empty payload, otherwise the
decrypted JSON object, string, or raw bytes. -/
inductive GPVal where
  | json (j : J)
  | str (s : List Nat)
  | raw (b : List Nat)
  | ffalse

/-- The JS `.length` of a decrypt result (`undefined` on objects). -/
def decValLength : DecVal → Option Nat
  | .str s => some s.length
  | .raw b => some b.length
  | .json _ => none

/-- `MessageParser.getPayload`. -/
def getPayload (pr : Prims) (st : CipherState) (data : List Nat) : GPVal :=
  if data.length = 0 then .ffalse
  else
    let d : DecVal :=
      match cipherDecrypt pr st data with
      | .ok v => v
      | .error _ => .str data
    if st.version = .v35 ∧ decValLength d = some 0 then .ffalse
    else
      match d with
      | .str s =>
        match pr.jsonParse s with
        | some j => .json j
        | none => .str s
      | .json j => .json j
      | .raw b => .raw b

/-- A fully parsed packet (payload decoded by `getPayload`). -/
structure Packet where
  payload : GPVal
  leftover : Option (List Nat)
  commandByte : Option Nat
  sequenceN : Option Nat

/-! ### Termination of the recursive multi-packet parse -/

theorem jsSliceFrom_length_lt (b : List Nat) (s : Int) (h0 : 0 < s)
    (hb : 0 < b.length) : (jsSliceFrom b s).length < b.length := by
  have hs : ¬s < 0 := by omega
  have hl : ¬(b.length : Int) < 0 := by omega
  simp only [jsSliceFrom, jsSlice, jsIdx, if_neg hs, if_neg hl, Int.toNat_natCast,
    Nat.min_self, List.take_length, List.length_drop]
  have h1 : 1 ≤ s.toNat.min b.length := Nat.le_min.mpr ⟨by omega, hb⟩
  generalize s.toNat.min b.length = m at h1
  omega

theorem suffixScan_ge (b : List Nat) : -1 ≤ suffixScan b := by
  unfold suffixScan
  rcases h1 : firstIdx b sufAA55 with _ | i <;> simp only [h1]
  · rcases h2 : firstIdx b suf9966 with _ | i <;> simp only [h2]
    · omega
    · omega
  · omega

theorem parseSplit_leftover_length (buffer l : List Nat) (hb : 3 ≤ buffer.length)
    (h : (parseSplit buffer).2 = some l) : l.length < buffer.length := by
  unfold parseSplit at h
  split at h
  · have h2 : some (jsSliceFrom buffer (suffixScan buffer + 4)) = some l := h
    have h3 := Option.some.inj h2
    subst h3
    exact jsSliceFrom_length_lt _ _ (by have := suffixScan_ge buffer; omega) (by omega)
  · exact absurd h (by simp)

theorem parsePacket_ok (pr : Prims) (st : CipherState) (buffer : List Nat)
    (p : RawPacket) (h : parsePacket pr st buffer = .ok p) :
    24 ≤ buffer.length ∧ p.leftover = (parseSplit buffer).2 := by
  unfold parsePacket at h
  split at h
  · exact absurd h (by simp)
  · rename_i hlen
    refine ⟨by omega, ?_⟩
    rcases hr : readU32 buffer 0 with e | pfx
    · simp [hr] at h
    · simp only [hr] at h
      split at h
      · exact absurd h (by simp)
      · rcases hb : parseBody pr st (parseSplit buffer).1 with e | body
        · simp [hb] at h
        · simp only [hb] at h
          obtain rfl := Except.ok.inj h
          rfl

/-- `MessageParser.parseRecursive`.  Terminates because a returned leftover
is a strict tail of the buffer. -/
def parseRecursive (pr : Prims) (st : CipherState) (buffer : List Nat)
    (packets : List Packet) : Except JsErr (List Packet) :=
  match h : parsePacket pr st buffer with
  | .error e => .error e
  | .ok result =>
    let pkt : Packet :=
      ⟨getPayload pr st result.payload, result.leftover, result.commandByte,
        result.sequenceN⟩
    match hl : result.leftover with
    | some l => parseRecursive pr st l (packets ++ [pkt])
    | none => .ok (packets ++ [pkt])
  termination_by buffer.length
  decreasing_by
    have := parsePacket_ok pr st buffer result h
    exact parseSplit_leftover_length buffer l (by omega) (this.2 ▸ hl)

/-- `MessageParser.parse`. -/
def parse (pr : Prims) (st : CipherState) (buffer : List Nat) :
    Except JsErr (List Packet) :=
  parseRecursive pr st buffer []

/-! ## Executable stand-in primitives for witnesses -/

theorem mapMod_eq_self (b : List Nat) (h : isBytes b) : b.map (· % 256) = b := by
  have : b.map (· % 256) = b.map id := by
    apply List.map_congr_left
    intro x hx
    exact Nat.mod_eq_of_lt (h x hx)
  simpa using this

/-- A fixed JSON payload used by witnesses. -/
def jA : J := .jobj [([0x61], .jnum 1)]

/-- Witness stand-in for `JSON.stringify`. -/
def toyStringify : J → List Nat := fun _ => [0x7B]

/-- Witness stand-in for `JSON.parse`: recognizes only `toyStringify`'s
output and maps it to `jA`. -/
def toyParse : List Nat → Option J := fun s =>
  if s = [0x7B] then some jA else none

/-- Executable stand-in primitives for witnesses: truncating identities for
the ciphers, constant digests. -/
def toyPrims : Prims where
  ecbEnc := fun _ b => b.map (· % 256)
  ecbDec := fun _ b => b
  gcmEnc := fun _ _ pt => pt.map (· % 256)
  gcmDec := fun _ _ ct => ct
  gcmTag := fun _ _ _ _ => List.replicate 16 0x42
  hmacSha256 := fun _ _ => List.replicate 32 0x07
  md5sig := fun _ => List.replicate 16 0x30
  crc32 := fun _ => 0
  jsonStringify := toyStringify
  jsonParse := toyParse
  b64enc := fun b => b.map (· % 256)
  b64dec := fun b => b

theorem toyPrims_laws : PrimLaws toyPrims := by
  refine ⟨?_, ?_, ?_, ?_, ?_, ?_, ?_, ?_, ?_, ?_, ?_, ?_, ?_, ?_, ?_, ?_⟩
  · exact fun k b hb _ => mapMod_eq_self b hb
  · intro k b; simp [toyPrims]
  · intro k b; rfl
  · intro k b x hx; simp only [toyPrims, List.mem_map] at hx
    obtain ⟨y, _, rfl⟩ := hx; exact Nat.mod_lt _ (by norm_num)
  · exact fun k iv pt hpt => mapMod_eq_self pt hpt
  · intro k iv pt; simp [toyPrims]
  · intro k iv pt x hx; simp only [toyPrims, List.mem_map] at hx
    obtain ⟨y, _, rfl⟩ := hx; exact Nat.mod_lt _ (by norm_num)
  · intro k iv aad ct; rfl
  · intro k iv aad ct x hx; simp only [toyPrims, List.mem_replicate] at hx; omega
  · intro k b; rfl
  · intro k b x hx; simp only [toyPrims, List.mem_replicate] at hx; omega
  · intro b; rfl
  · intro b x hx; simp only [toyPrims, List.mem_replicate] at hx; omega
  · intro b; rfl
  · exact fun b hb => mapMod_eq_self b hb
  · intro b x hx; simp only [toyPrims, List.mem_map] at hx
    obtain ⟨y, _, rfl⟩ := hx; exact Nat.mod_lt _ (by norm_num)

/-- A 16-byte key for witnesses (ASCII 'a' repeated). -/
def keyA : List Nat := List.replicate 16 0x61

/-- A v3.4 cipher state with no session key, for witnesses. -/
def st34A : CipherState := ⟨keyA, .v34, none⟩

/-! ## C8 — v3.4 encrypt succeeds only on block-aligned input -/

/-- **C8.** For protocol v3.4, `Cipher.encrypt` succeeds exactly when the
plaintext length is a multiple of 16 bytes: auto-padding is disabled, so for
any other length `cipher.final()` throws; and on input pre-padded with the
`_encode34` padding step the error branch is unreachable. -/
theorem C8_encrypt34_block_alignment (pr : Prims) (st : CipherState)
    (h34 : st.version = .v34) (data : List Nat) :
    ((cipherEncrypt pr st data none none none []).isOk = true ↔
      data.length % 16 = 0)
    ∧ (cipherEncrypt pr st (pad34 data) none none none []).isOk = true := by
  have hpad : (pad34 data).length % 16 = 0 := by
    simp only [pad34, List.length_append, List.length_replicate]
    omega
  constructor
  · by_cases hc : data.length % 16 = 0 <;>
      simp [cipherEncrypt, h34, encrypt34, hc, Except.isOk, Except.toBool]
  · simp [cipherEncrypt, h34, encrypt34, hpad, Except.isOk, Except.toBool]

/-- Witness for C8 at a concrete unaligned input. -/
theorem C8_encrypt34_block_alignment_witness :
    (((cipherEncrypt toyPrims st34A [1, 2, 3] none none none []).isOk = true ↔
      ([1, 2, 3] : List Nat).length % 16 = 0)
    ∧ (cipherEncrypt toyPrims st34A (pad34 [1, 2, 3]) none none none []).isOk
        = true) :=
  C8_encrypt34_block_alignment toyPrims st34A rfl [1, 2, 3]

/-! ## C9 — v3.4 decrypt padding removal -/

theorem jsSlice_zero_sub (pt : List Nat) (k : Nat) :
    jsSlice pt 0 ((pt.length : Int) - (k : Int)) =
      pt.take (if k ≤ pt.length then pt.length - k else 2 * pt.length - k) := by
  have h0 : jsIdx pt.length 0 = 0 := by simp [jsIdx]
  have he : jsIdx pt.length ((pt.length : Int) - (k : Int)) =
      if k ≤ pt.length then pt.length - k else 2 * pt.length - k := by
    unfold jsIdx
    rcases Nat.lt_or_ge pt.length k with hlt | hge
    · rw [if_pos (by omega), if_neg (by omega)]
      have h1 : ((pt.length : Int) + ((pt.length : Int) - (k : Int))).toNat =
          2 * pt.length - k := by omega
      rw [h1]
      exact Nat.min_eq_left (by omega)
    · rw [if_neg (by omega), if_pos hge]
      have h1 : ((pt.length : Int) - (k : Int)).toNat = pt.length - k := by omega
      rw [h1]
      exact Nat.min_eq_left (by omega)
  simp only [jsSlice, h0, he, List.drop_zero]

/-- **C9 (amended).** For protocol v3.4, `decrypt` strips `k` bytes from the
ECB plaintext where `k` is the final byte, without validating the pad: when
`k` is at most the plaintext length exactly `k` trailing bytes are removed,
but when `k` exceeds the length the JS negative-end slice keeps the first
`2·len − k` bytes (clamped at 0), so the result is empty only for `k = len`
or `k ≥ 2·len`, not for every `k ≥ len`. -/
theorem C9_decrypt34_padStrip (pr : Prims) (st : CipherState)
    (h34 : st.version = .v34) (data : List Nat) (hAligned : data.length % 16 = 0)
    (k : Nat) (hk : (pr.ecbDec st.getKey data).getLast? = some k) :
    decrypt34 pr st data
      = .ok (decryptPost pr st (strip34 (pr.ecbDec st.getKey data)))
    ∧ strip34 (pr.ecbDec st.getKey data) =
        (pr.ecbDec st.getKey data).take
          (if k ≤ (pr.ecbDec st.getKey data).length
           then (pr.ecbDec st.getKey data).length - k
           else 2 * (pr.ecbDec st.getKey data).length - k) := by
  constructor
  · simp [decrypt34, hAligned]
  · generalize pr.ecbDec st.getKey data = pt at hk ⊢
    simp only [strip34, hk]
    exact jsSlice_zero_sub pt k

/-- A concrete block whose ECB plaintext ends in a valid pad byte 4. -/
def d16pad : List Nat := [1, 2, 3, 4, 5, 6, 7, 8, 9, 10, 11, 12, 4, 4, 4, 4]

/-- Witness for C9 (amended) at a concrete input. -/
theorem C9_decrypt34_padStrip_witness :
    decrypt34 toyPrims st34A d16pad
      = .ok (decryptPost toyPrims st34A (strip34 (toyPrims.ecbDec st34A.getKey d16pad)))
    ∧ strip34 (toyPrims.ecbDec st34A.getKey d16pad) =
        (toyPrims.ecbDec st34A.getKey d16pad).take
          (if 4 ≤ (toyPrims.ecbDec st34A.getKey d16pad).length
           then (toyPrims.ecbDec st34A.getKey d16pad).length - 4
           else 2 * (toyPrims.ecbDec st34A.getKey d16pad).length - 4) :=
  C9_decrypt34_padStrip toyPrims st34A rfl d16pad (by decide) 4 (by decide)

/-- **C9 counterexample.** A 16-byte input whose decrypted final byte is 17
(greater than the plaintext length): the claim says the result is an empty
buffer, but the code returns the first 15 bytes. -/
theorem C9_counterexample :
    decrypt34 toyPrims st34A
        [1, 2, 3, 4, 5, 6, 7, 8, 9, 10, 11, 12, 13, 14, 15, 17]
      = .ok (.raw [1, 2, 3, 4, 5, 6, 7, 8, 9, 10, 11, 12, 13, 14, 15])
    ∧ ([1, 2, 3, 4, 5, 6, 7, 8, 9, 10, 11, 12, 13, 14, 15] : List Nat) ≠ [] := by
  exact ⟨rfl, by simp⟩

/-! ## C10 — a prefixed buffer without any suffix marker always throws -/

/-- The core of the no-suffix behaviour, shared by C10 and C4: the scan yields
`-1`, the buffer is trimmed to 3 bytes, and `readUInt32BE(-1)` raises a
`RangeError`. -/
theorem parsePacket_no_suffix_rangeError (pr : Prims) (st : CipherState)
    (B : List Nat) (hlen : 24 ≤ B.length)
    (pfx : Nat) (hp : readU32 B 0 = .ok pfx)
    (hmagic : pfx = 0x000055AA ∨ pfx = 0x00006699)
    (hA : firstIdx B sufAA55 = none) (h9 : firstIdx B suf9966 = none) :
    suffixScan B = -1 ∧ parsePacket pr st B = .error .rangeError := by
  have hscan : suffixScan B = -1 := by simp [suffixScan, hA, h9]
  refine ⟨hscan, ?_⟩
  have hsplit1 : (parseSplit B).1 = jsSlice B 0 3 := by
    unfold parseSplit
    rw [hscan, if_pos (by omega)]
    norm_num
  have hflen : (jsSlice B 0 3).length = 3 := by
    simp [jsSlice, jsIdx, List.length_drop, List.length_take]
    omega
  have hbody : parseBody pr st (parseSplit B).1 = .error .rangeError := by
    rw [hsplit1]
    unfold parseBody
    rw [show ((jsSlice B 0 3).length : Int) - 4 = -1 by rw [hflen]; norm_num]
    simp [readU32I, Bind.bind, Except.bind]
  simp only [parsePacket, if_neg (by omega : ¬B.length < 24), hp, hbody]
  rw [if_neg (by rcases hmagic with rfl | rfl <;> simp)]

/-- **C10.** For every buffer of at least 24 bytes that begins with a valid
prefix but contains no occurrence of `0x0000AA55` or `0x00009966`, the
suffix scan yields `-1` and `parsePacket` always throws (an out-of-range
read at offset `-1` of the 3-byte trim) instead of returning a packet. -/
theorem C10_no_suffix_throws (pr : Prims) (st : CipherState) (B : List Nat)
    (hlen : 24 ≤ B.length)
    (pfx : Nat) (hp : readU32 B 0 = .ok pfx)
    (hmagic : pfx = 0x000055AA ∨ pfx = 0x00006699)
    (hA : firstIdx B sufAA55 = none) (h9 : firstIdx B suf9966 = none) :
    suffixScan B = -1 ∧ parsePacket pr st B = .error .rangeError :=
  parsePacket_no_suffix_rangeError pr st B hlen pfx hp hmagic hA h9

/-- A 24-byte buffer with a valid prefix and no suffix marker anywhere. -/
def B10 : List Nat := [0x00, 0x00, 0x55, 0xAA] ++ List.replicate 20 1

/-- Witness for C10 at a concrete buffer. -/
theorem C10_no_suffix_throws_witness :
    suffixScan B10 = -1 ∧ parsePacket toyPrims st34A B10 = .error .rangeError :=
  C10_no_suffix_throws toyPrims st34A B10 (by decide) 0x000055AA rfl
    (Or.inl rfl) (by decide) (by decide)

/-! ## C3 — v3.4/v3.5 session key negotiation

The fragment of `TuyaDevice._packetHandler` that runs on a
`SESS_KEY_NEG_RES` reply after the HMAC check (index.js lines 781–797):

```js
this.sessionKey = Buffer.from(this._tmpLocalKey);
for (let i = 0; i < this._tmpLocalKey.length; i++) {
  this.sessionKey[i] = this._tmpLocalKey[i] ^ this._tmpRemoteKey[i];
}
if (this.device.version === '3.4') {
  this.sessionKey = this.device.parser.cipher._encrypt34({data: this.sessionKey});
} else if (this.device.version === '3.5') {
  this.sessionKey = this.device.parser.cipher._encrypt35({data: this.sessionKey, iv: this._tmpLocalKey});
}
this.device.parser.cipher.setSessionKey(this.sessionKey);
```
-/

/-- Session-key installation on `SESS_KEY_NEG_RES`: XOR the nonces byte-wise,
re-encrypt under the still-installed local key, install with
`setSessionKey`.  `L` is `_tmpLocalKey`, `R` is `_tmpRemoteKey`
(`packet.payload.subarray(0, 16)`). -/
def negotiateSessionKey (pr : Prims) (st : CipherState) (L R : List Nat)
    (nowIV : List Nat) : Except JsErr CipherState := do
  let base := List.zipWith Nat.xor L R
  let sk ←
    if st.version = .v34 then encrypt34 pr st base
    else if st.version = .v35 then .ok (encrypt35 pr st base (some L) none nowIV)
    else .ok base
  return st.setSessionKey (some sk)

/-- **C3.** After `SESS_KEY_NEG_RES` with remote nonce `R` for local nonce
`L`, the session key is the byte-wise XOR `L[i] ^^^ R[i]` (i in 0..16)
re-encrypted under the local key — AES-128-ECB without padding for v3.4,
AES-128-GCM with IV = `L` (truncated to the 12 IV bytes GCM uses) for v3.5 —
and the installed key is what `getKey`, and hence every subsequent
encrypt/decrypt/hmac, uses in place of the local key. -/
theorem C3_session_key_negotiation (pr : Prims) (st : CipherState)
    (L R nowIV : List Nat) (hsk : st.sessionKey = none)
    (hL : L.length = 16) (hR : R.length = 16) :
    (st.version = .v34 →
      negotiateSessionKey pr st L R nowIV =
        .ok (st.setSessionKey (some (pr.ecbEnc st.key (List.zipWith Nat.xor L R)))))
    ∧ (st.version = .v35 →
      negotiateSessionKey pr st L R nowIV =
        .ok (st.setSessionKey
          (some (pr.gcmEnc st.key (jsSlice L 0 12) (List.zipWith Nat.xor L R)))))
    ∧ (∀ i, i < 16 →
        (List.zipWith Nat.xor L R).getD i 0 = (L.getD i 0) ^^^ (R.getD i 0))
    ∧ (∀ sk, (st.setSessionKey (some sk)).getKey = sk
        ∧ (∀ d, cipherHmac pr (st.setSessionKey (some sk)) d = pr.hmacSha256 sk d)
        ∧ (∀ d, d.length % 16 = 0 →
            encrypt34 pr (st.setSessionKey (some sk)) d = .ok (pr.ecbEnc sk d))) := by
  have hkey : st.getKey = st.key := by
    simp [CipherState.getKey, hsk]
  have hxlen : (List.zipWith Nat.xor L R).length = 16 := by
    simp [List.length_zipWith, hL, hR]
  refine ⟨?_, ?_, ?_, ?_⟩
  · intro h34
    simp [negotiateSessionKey, h34, encrypt34, hxlen, hkey, Bind.bind, Except.bind,
      Pure.pure, Except.pure]
  · intro h35
    have : st.version ≠ .v34 := by rw [h35]; simp
    simp [negotiateSessionKey, h35, this, encrypt35, hkey, Bind.bind, Except.bind,
      Pure.pure, Except.pure]
  · intro i hi
    have hiL : i < L.length := by omega
    have hiR : i < R.length := by omega
    have hiX : i < (List.zipWith Nat.xor L R).length := by omega
    rw [List.getD_eq_getElem _ _ hiX, List.getD_eq_getElem _ _ hiL,
      List.getD_eq_getElem _ _ hiR, List.getElem_zipWith]
    rfl
  · intro sk
    refine ⟨rfl, fun d => rfl, fun d hd => ?_⟩
    simp [encrypt34, hd, CipherState.setSessionKey, CipherState.getKey]

/-- Witness for C3 at concrete nonces. -/
theorem C3_session_key_negotiation_witness :
    ((st34A.version = .v34 →
      negotiateSessionKey toyPrims st34A (List.replicate 16 3) (List.replicate 16 5) []
        = .ok (st34A.setSessionKey (some (toyPrims.ecbEnc st34A.key
            (List.zipWith Nat.xor (List.replicate 16 3) (List.replicate 16 5))))))
    ∧ (st34A.version = .v35 →
      negotiateSessionKey toyPrims st34A (List.replicate 16 3) (List.replicate 16 5) []
        = .ok (st34A.setSessionKey (some (toyPrims.gcmEnc st34A.key
            (jsSlice (List.replicate 16 3) 0 12)
            (List.zipWith Nat.xor (List.replicate 16 3) (List.replicate 16 5))))))
    ∧ (∀ i, i < 16 →
        (List.zipWith Nat.xor (List.replicate 16 3) (List.replicate 16 5)).getD i 0
          = ((List.replicate 16 3).getD i 0) ^^^ ((List.replicate 16 5).getD i 0))
    ∧ (∀ sk, (st34A.setSessionKey (some sk)).getKey = sk
        ∧ (∀ d, cipherHmac toyPrims (st34A.setSessionKey (some sk)) d
            = toyPrims.hmacSha256 sk d)
        ∧ (∀ d, d.length % 16 = 0 →
            encrypt34 toyPrims (st34A.setSessionKey (some sk)) d
              = .ok (toyPrims.ecbEnc sk d)))) :=
  C3_session_key_negotiation toyPrims st34A (List.replicate 16 3)
    (List.replicate 16 5) [] rfl (by decide) (by decide)

/-! ## C5 — sequence-number assignment within a session

`this._currentSequenceN` starts at 0 (constructor line 101).  The sites
that touch it:

* `get()` — `sequenceN: ++this._currentSequenceN`
* `refresh()` — `const sequenceN = ++this._currentSequenceN`
* `set()` — `const sequenceN = ++this._currentSequenceN`, and for v3.5 an
  additional `this._currentSequenceN++` before sending
* `_sendPing()` — `++this._currentSequenceN`
* the connect handler's `SESS_KEY_NEG_START` — `++this._currentSequenceN`
* `_packetHandler` on `SESS_KEY_NEG_RES` —
  `this._currentSequenceN = packet.sequenceN - 1`, then the
  `SESS_KEY_NEG_FINISH` frame is encoded with `++this._currentSequenceN`.
-/

/-- Events that touch `_currentSequenceN`. -/
inductive SeqEvent where
  | sendGet
  | sendRefresh
  | sendSet
  | sendPing
  | sendNegStart
  /-- a `SESS_KEY_NEG_RES` reply carrying sequence number `replySeq`:
  re-sync then send `SESS_KEY_NEG_FINISH` -/
  | recvNegRes (replySeq : Nat)
  deriving DecidableEq, Repr

/-- One step of the sequence counter: the new counter value and the sequence
number written into the outbound frame.  `v35` selects the extra increment
inside `set` for protocol 3.5. -/
def seqStep (v35 : Bool) (c : Int) : SeqEvent → Int × Int
  | .sendGet => (c + 1, c + 1)
  | .sendRefresh => (c + 1, c + 1)
  | .sendSet => (if v35 then c + 2 else c + 1, c + 1)
  | .sendPing => (c + 1, c + 1)
  | .sendNegStart => (c + 1, c + 1)
  | .recvNegRes r => ((r : Int) - 1 + 1, (r : Int) - 1 + 1)

/-- Run a session's events from counter `c`, collecting the outbound
sequence numbers in order. -/
def seqRun (v35 : Bool) (c : Int) : List SeqEvent → Int × List Int
  | [] => (c, [])
  | e :: tl =>
    let s := seqStep v35 c e
    let rest := seqRun v35 s.1 tl
    (rest.1, s.2 :: rest.2)

/-- The events whose re-syncs never move the counter backwards: every
`recvNegRes r` arrives with `r ≥ counter + 1` at that point. -/
def noRewind (v35 : Bool) (c : Int) : List SeqEvent → Prop
  | [] => True
  | e :: tl =>
    (match e with
     | .recvNegRes r => c + 1 ≤ (r : Int)
     | _ => True)
    ∧ noRewind v35 (seqStep v35 c e).1 tl

instance (v35 : Bool) (c : Int) (evs : List SeqEvent) :
    Decidable (noRewind v35 c evs) := by
  induction evs generalizing c with
  | nil => exact .isTrue trivial
  | cons e tl ih =>
    have := ih (seqStep v35 c e).1
    unfold noRewind
    rcases e <;> exact instDecidableAnd

theorem seqRun_invariant (v35 : Bool) (evs : List SeqEvent) (c : Int)
    (h : noRewind v35 c evs) :
    List.Pairwise (· < ·) (seqRun v35 c evs).2
    ∧ (∀ x ∈ (seqRun v35 c evs).2, c < x ∧ x ≤ (seqRun v35 c evs).1)
    ∧ c ≤ (seqRun v35 c evs).1 := by
  induction evs generalizing c with
  | nil => simp [seqRun]
  | cons e tl ih =>
    obtain ⟨hguard, htl⟩ := h
    obtain ⟨ihp, ihmem, ihc⟩ := ih (seqStep v35 c e).1 htl
    have hstep : c < (seqStep v35 c e).2 ∧ (seqStep v35 c e).2 ≤ (seqStep v35 c e).1 := by
      rcases e with _ | _ | _ | _ | _ | r <;> simp [seqStep] at hguard ⊢ <;> omega
    constructor
    · simp only [seqRun, List.pairwise_cons]
      refine ⟨fun x hx => ?_, ihp⟩
      have := (ihmem x hx).1
      omega
    · constructor
      · intro x hx
        simp only [seqRun, List.mem_cons] at hx
        rcases hx with rfl | hx
        · simp only [seqRun]
          exact ⟨hstep.1, by omega⟩
        · have := ihmem x hx
          simp only [seqRun]
          exact ⟨by omega, this.2⟩
      · simp only [seqRun]
        omega

/-- **C5 (amended).** Within a session the sequence numbers written into
outbound frames are strictly increasing (hence never reused) *provided* each
v3.4/v3.5 handshake re-sync `(counter := reply.sequenceN − 1)` does not move
the counter backwards, i.e. the `SESS_KEY_NEG_RES` reply's sequence number
is at least counter + 1; without that proviso the re-sync can reuse a
sequence number. -/
theorem C5_sequence_monotonic (v35 : Bool) (evs : List SeqEvent)
    (h : noRewind v35 0 evs) :
    List.Pairwise (· < ·) (seqRun v35 0 evs).2 :=
  (seqRun_invariant v35 evs 0 h).1

/-- Witness for C5 (amended) on a concrete session trace. -/
theorem C5_sequence_monotonic_witness :
    List.Pairwise (· < ·)
      (seqRun true 0 [.sendNegStart, .recvNegRes 5, .sendSet, .sendGet]).2 :=
  C5_sequence_monotonic true [.sendNegStart, .recvNegRes 5, .sendSet, .sendGet]
    (by decide)

/-- **C5 counterexample.** If the device answers `SESS_KEY_NEG_START`
(sent with sequence number 1) with a `SESS_KEY_NEG_RES` whose sequence
number is 1, the re-sync sets the counter to 0 and the
`SESS_KEY_NEG_FINISH` frame goes out with sequence number 1 again: the
outbound sequence numbers are `[1, 1]` — reused and not strictly
increasing. -/
theorem C5_counterexample :
    (seqRun false 0 [.sendNegStart, .recvNegRes 1]).2 = [1, 1]
    ∧ ¬List.Pairwise (· < ·) (seqRun false 0 [.sendNegStart, .recvNegRes 1]).2 := by
  constructor
  · decide
  · decide

/-! ## C6 — `set` response timeout

`set()` wraps its promise in `pTimeout(…, this._responseTimeout * 2500, …)`
(index.js line 447); `this._responseTimeout = 2` (constructor line 95).
The timeout fallback (lines 448-461) clears the resolver slots, deletes the
pending entry for the set's sequence number, emits `error`, and throws when
nothing has resolved or rejected yet. -/

/-- The slots of `TuyaDevice` touched by the `set` response timeout. -/
structure PendingState where
  /-- whether `this._setResolver` currently holds a function -/
  setResolver : Bool
  setResolveAllowGet : Option Bool
  /-- the keys of `this._resolvers` -/
  resolvers : List Nat
  expectRefreshResponseForSequenceN : Option Nat
  /-- how many `error` events have been emitted -/
  emittedErrors : Nat
  deriving DecidableEq, Repr

/-- `this._responseTimeout` default (seconds). -/
def responseTimeoutDefault : Nat := 2

/-- The `pTimeout` duration armed by `set`, in milliseconds. -/
def setTimeoutMs (responseTimeout : Nat) : Nat := responseTimeout * 2500

/-- The timeout fallback of `set`: the updated state, and whether the
fallback throws (rejecting the `set`). -/
def setTimeoutHandler (st : PendingState) (sequenceN : Nat)
    (resolvedOrRejected : Bool) : PendingState × Bool :=
  (⟨false, none, st.resolvers.filter (· ≠ sequenceN), none, st.emittedErrors + 1⟩,
   !resolvedOrRejected)

/-- **C6.** A `set` waiting for a response that never arrives is failed by a
timeout armed at `response_timeout × 2500` ms — 5000 ms with the default
`response_timeout` of 2 — whose handler clears the set resolver, deletes the
pending-table entry for the set's sequence number, emits an `error` event,
and rejects the `set`. -/
theorem C6_set_timeout (st : PendingState) (seq : Nat) (ror : Bool)
    (hror : ror = false) :
    setTimeoutMs responseTimeoutDefault = 5000
    ∧ (setTimeoutHandler st seq ror).1.setResolver = false
    ∧ (setTimeoutHandler st seq ror).1.setResolveAllowGet = none
    ∧ seq ∉ (setTimeoutHandler st seq ror).1.resolvers
    ∧ (setTimeoutHandler st seq ror).1.expectRefreshResponseForSequenceN = none
    ∧ (setTimeoutHandler st seq ror).1.emittedErrors = st.emittedErrors + 1
    ∧ (setTimeoutHandler st seq ror).2 = true := by
  refine ⟨rfl, rfl, rfl, ?_, rfl, rfl, by simp [setTimeoutHandler, hror]⟩
  intro hmem
  simp only [setTimeoutHandler, List.mem_filter] at hmem
  simp at hmem

/-- Witness for C6 at a concrete pending state. -/
theorem C6_set_timeout_witness :
    setTimeoutMs responseTimeoutDefault = 5000
    ∧ (setTimeoutHandler ⟨true, some false, [7], some 7, 0⟩ 7 false).1.setResolver = false
    ∧ (setTimeoutHandler ⟨true, some false, [7], some 7, 0⟩ 7 false).1.setResolveAllowGet = none
    ∧ 7 ∉ (setTimeoutHandler ⟨true, some false, [7], some 7, 0⟩ 7 false).1.resolvers
    ∧ (setTimeoutHandler ⟨true, some false, [7], some 7, 0⟩ 7
        false).1.expectRefreshResponseForSequenceN = none
    ∧ (setTimeoutHandler ⟨true, some false, [7], some 7, 0⟩ 7 false).1.emittedErrors
        = (⟨true, some false, [7], some 7, 0⟩ : PendingState).emittedErrors + 1
    ∧ (setTimeoutHandler ⟨true, some false, [7], some 7, 0⟩ 7 false).2 = true :=
  C6_set_timeout ⟨true, some false, [7], some 7, 0⟩ 7 false rfl

/-! ## C7 — socket cleanup on the exit paths of `find()`

`find()` binds two UDP sockets (ports 6666 and 6667).  The broadcast
handler (index.js lines 1011-1087) closes both on a successful resolve, and
the `pTimeout` fallback (lines 1104-1118) closes both on expiry; the parse
failure path (line 1027) rejects without closing either, as does the
socket-`error` path.  The device-record mutations of the resolve branch
(ip/id/gwID/productKey/version and the parser re-seat) touch no socket and
are not tracked here. -/

/-- ASCII `"gwId"`. -/
def keyGwId : List Nat := [0x67, 0x77, 0x49, 0x64]

/-- ASCII `"ip"`. -/
def keyIp : List Nat := [0x69, 0x70]

/-- ASCII `"dps"`. -/
def keyDps : List Nat := [0x64, 0x70, 0x73]

/-- ASCII `"19"` (numeric keys of JSON objects are strings). -/
def key19 : List Nat := [0x31, 0x39]

/-- Property access `payload.k` on a `getPayload` result: `undefined`
(`none`) except on an object with the field. -/
def getF (p : GPVal) (k : List Nat) : Option J :=
  match p with
  | .json (.jobj f) => jLookup f k
  | _ => none

/-- `thisDPS[19]`: element access on the `dps` value. -/
def dps19 (d : Option J) : Option J :=
  match d with
  | some (.jobj f) => jLookup f key19
  | some (.jarr es) => es.get? 19
  | _ => none

/-- JS truthiness of `thisDPS`. -/
def jTruthy (v : Option J) : Bool :=
  match v with
  | none => false
  | some .jnull => false
  | some (.jbool b) => b
  | some (.jnum n) => n != 0
  | some (.jstr s) => !s.isEmpty
  | some (.jarr _) => true
  | some (.jobj _) => true

/-- JS `===` between harvested broadcast values (`undefined` equals
`undefined`; primitives by value; objects by reference, and the two sides
never alias here). -/
def jsEqJ (a b : Option J) : Bool :=
  match a, b with
  | none, none => true
  | some .jnull, some .jnull => true
  | some (.jbool x), some (.jbool y) => x == y
  | some (.jnum x), some (.jnum y) => x == y
  | some (.jstr x), some (.jstr y) => x == y
  | _, _ => false

/-- JS truthiness of `dataRes.payload`. -/
def gpTruthy : GPVal → Bool
  | .ffalse => false
  | .json .jnull => false
  | .json (.jbool b) => b
  | .json (.jnum n) => n != 0
  | .json (.jstr s) => !s.isEmpty
  | .json (.jarr _) => true
  | .json (.jobj _) => true
  | .str s => !s.isEmpty
  | .raw _ => true

/-- The pieces of `TuyaDevice` state touched by `find()` that the claims
mention: the two UDP listeners, `foundDevices`, and `_dpRefreshIds`. -/
structure FindState where
  listenerOpen : Bool
  listenerEncryptedOpen : Bool
  foundDevices : List (Option J × Option J)
  dpRefreshIds : List Nat

/-- How a `broadcastHandler` invocation settles. -/
inductive FindAction where
  | ignored
  | rejected (e : JsErr)
  | resolved
  deriving DecidableEq, Repr

/-- `parser.parse(message)[0]` with the well-known UDP key, falling back to
a parser keyed with the device key; on double failure the handler rejects
with the first error.  (The UDP key itself — `MD5('yGAdlopoPVldABfn')` from
`lib/config.js`, which is not under `src/` — is a parameter.) -/
def parseFirst (pr : Prims) (ver : Ver) (udpKey devKey : List Nat)
    (message : List Nat) : Except JsErr Packet :=
  match parse pr ⟨udpKey, ver, none⟩ message with
  | .ok pkts =>
    match pkts.head? with
    | some p => .ok p
    | none => .error .typeError
  | .error e =>
    match parse pr ⟨devKey, ver, none⟩ message with
    | .ok pkts =>
      match pkts.head? with
      | some p => .ok p
      | none => .error .typeError
    | .error _ => .error e

/-- The `broadcastHandler` of `find()`. -/
def broadcastHandler (pr : Prims) (ver : Ver) (udpKey devKey : List Nat)
    (all : Bool) (devId devIp : Option (List Nat)) (st : FindState)
    (message : List Nat) : FindState × FindAction :=
  match parseFirst pr ver udpKey devKey message with
  | .error e => (st, .rejected e)
  | .ok dataRes =>
    match dataRes.payload with
    | .str _ => (st, .ignored)
    | payload =>
      let thisID := getF payload keyGwId
      let thisIP := getF payload keyIp
      let thisDPS := getF payload keyDps
      let st1 := { st with dpRefreshIds :=
        (if jTruthy thisDPS && (dps19 thisDPS).isNone then [4, 5, 6]
         else [18, 19, 20]) }
      let st2 :=
        if st1.foundDevices.any (fun e => jsEqJ e.1 thisID && jsEqJ e.2 thisIP) then st1
        else { st1 with foundDevices := st1.foundDevices ++ [(thisID, thisIP)] }
      if ¬all ∧ (jsEqJ (devId.map .jstr) thisID ∨ jsEqJ (devIp.map .jstr) thisIP)
          ∧ gpTruthy payload then
        ({ st2 with listenerOpen := false, listenerEncryptedOpen := false }, .resolved)
      else
        (st2, .ignored)

/-- The `pTimeout` fallback of `find()`: close both sockets; return
`foundDevices` when `all` (second component `true`), otherwise throw
`FindTimeout`. -/
def findTimeoutHandler (all : Bool) (st : FindState) : FindState × Bool :=
  ({ st with listenerOpen := false, listenerEncryptedOpen := false }, all)

/-- **C7 (amended).** `find()` closes both UDP listener sockets on a
successful resolution and on timeout expiry (with or without `all`), but a
failure while handling a broadcast rejects `find()` without closing either
socket, so both listeners stay open on that exit path. -/
theorem C7_find_socket_cleanup (pr : Prims) (ver : Ver)
    (udpKey devKey : List Nat) (all : Bool) (devId devIp : Option (List Nat))
    (st : FindState) (message : List Nat) (hopen : st.listenerOpen = true) :
    ((broadcastHandler pr ver udpKey devKey all devId devIp st message).2 = .resolved →
      (broadcastHandler pr ver udpKey devKey all devId devIp st message).1.listenerOpen = false
      ∧ (broadcastHandler pr ver udpKey devKey all devId devIp st
          message).1.listenerEncryptedOpen = false)
    ∧ ((findTimeoutHandler all st).1.listenerOpen = false
        ∧ (findTimeoutHandler all st).1.listenerEncryptedOpen = false)
    ∧ (∀ e, (broadcastHandler pr ver udpKey devKey all devId devIp st message).2
          = .rejected e →
        (broadcastHandler pr ver udpKey devKey all devId devIp st
          message).1.listenerOpen = true) := by
  refine ⟨?_, ⟨rfl, rfl⟩, ?_⟩
  · unfold broadcastHandler
    rcases hp : parseFirst pr ver udpKey devKey message with e | dataRes <;>
      simp only [hp]
    · intro h
      exact absurd h (by simp)
    · rcases hpl : dataRes.payload with j | s | b | f <;> simp only [hpl] <;>
        [skip; (intro h; exact absurd h (by simp)); skip; skip] <;>
      · split
        · intro _; exact ⟨rfl, rfl⟩
        · intro h; exact absurd h (by simp)
  · unfold broadcastHandler
    rcases hp : parseFirst pr ver udpKey devKey message with e | dataRes <;>
      simp only [hp]
    · intro e' h
      exact hopen
    · rcases hpl : dataRes.payload with j | s | b | f <;> simp only [hpl] <;>
        [skip; (intro e' h; exact absurd h (by simp)); skip; skip] <;>
      · split
        · intro e' h; exact absurd h (by simp)
        · intro e' h; exact absurd h (by simp)

/-- The `find()`-relevant state right after both listeners are bound. -/
def fs0 : FindState := ⟨true, true, [], [4, 5, 6, 18, 19, 20]⟩

/-- Witness for C7 (amended) at a concrete message. -/
theorem C7_find_socket_cleanup_witness :
    ((broadcastHandler toyPrims .v33 keyA keyA false (some keyA) none fs0 [1, 2, 3]).2
        = .resolved →
      (broadcastHandler toyPrims .v33 keyA keyA false (some keyA) none fs0
        [1, 2, 3]).1.listenerOpen = false
      ∧ (broadcastHandler toyPrims .v33 keyA keyA false (some keyA) none fs0
          [1, 2, 3]).1.listenerEncryptedOpen = false)
    ∧ ((findTimeoutHandler false fs0).1.listenerOpen = false
        ∧ (findTimeoutHandler false fs0).1.listenerEncryptedOpen = false)
    ∧ (∀ e, (broadcastHandler toyPrims .v33 keyA keyA false (some keyA) none fs0
          [1, 2, 3]).2 = .rejected e →
        (broadcastHandler toyPrims .v33 keyA keyA false (some keyA) none fs0
          [1, 2, 3]).1.listenerOpen = true) :=
  C7_find_socket_cleanup toyPrims .v33 keyA keyA false (some keyA) none fs0 [1, 2, 3] rfl

/-! ### Lemmas about the suffix scan on concatenated buffers (for C2) -/

theorem firstIdx_le (b pat : List Nat) (i : Nat) (h : firstIdx b pat = some i) :
    i + pat.length ≤ b.length := by
  induction b generalizing i with
  | nil =>
    unfold firstIdx at h
    split at h
    · rename_i hp
      obtain rfl := Option.some.inj h
      simp [hp]
    · exact absurd h (by simp)
  | cons hd tl ih =>
    unfold firstIdx at h
    split at h
    · rename_i hp
      obtain rfl := Option.some.inj h
      have : ((hd :: tl).take pat.length).length = pat.length := by rw [hp]
      simp only [List.length_take] at this
      omega
    · obtain ⟨j, hj, rfl⟩ := Option.map_eq_some'.mp h
      have := ih j hj
      simp only [List.length_cons]
      omega

theorem firstIdx_spec (b pat : List Nat) (i : Nat) (h : firstIdx b pat = some i) :
    (b.drop i).take pat.length = pat := by
  induction b generalizing i with
  | nil =>
    unfold firstIdx at h
    split at h
    · rename_i hp
      obtain rfl := Option.some.inj h
      simp [hp]
    · exact absurd h (by simp)
  | cons hd tl ih =>
    unfold firstIdx at h
    split at h
    · rename_i hp
      obtain rfl := Option.some.inj h
      simpa using hp
    · obtain ⟨j, hj, rfl⟩ := Option.map_eq_some'.mp h
      simpa using ih j hj

theorem firstIdx_append_some (b c pat : List Nat) (i : Nat)
    (h : firstIdx b pat = some i) : firstIdx (b ++ c) pat = some i := by
  induction b generalizing i with
  | nil =>
    unfold firstIdx at h
    split at h
    · rename_i hp
      obtain rfl := Option.some.inj h
      subst hp
      cases c with
      | nil => rfl
      | cons x xs => simp [firstIdx]
    · exact absurd h (by simp)
  | cons hd tl ih =>
    have hle := firstIdx_le _ _ _ h
    unfold firstIdx at h
    split at h
    · rename_i hp
      obtain rfl := Option.some.inj h
      have hlen : pat.length ≤ (hd :: tl).length := by
        have : ((hd :: tl).take pat.length).length = pat.length := by rw [hp]
        simp only [List.length_take] at this
        omega
      rw [List.cons_append]
      unfold firstIdx
      rw [if_pos]
      rw [← List.cons_append, List.take_append_eq_append_take]
      have h0 : pat.length - (hd :: tl).length = 0 := by omega
      rw [h0, List.take_zero, List.append_nil]
      exact hp
    · rename_i hcond
      obtain ⟨j, hj, rfl⟩ := Option.map_eq_some'.mp h
      have hle2 := firstIdx_le _ _ _ hj
      rw [List.cons_append]
      unfold firstIdx
      rw [if_neg, ih j hj]
      · rfl
      · intro habs
        apply hcond
        rw [← List.cons_append, List.take_append_eq_append_take] at habs
        have h0 : pat.length - (hd :: tl).length = 0 := by
          simp only [List.length_cons]
          omega
        rw [h0, List.take_zero, List.append_nil] at habs
        exact habs

theorem firstIdx_none_iff (b pat : List Nat) (hp : pat ≠ []) :
    firstIdx b pat = none ↔ ∀ j, (b.drop j).take pat.length ≠ pat := by
  induction b with
  | nil =>
    simp only [firstIdx, if_neg hp]
    constructor
    · intro _ j
      simp only [List.drop_nil, List.take_nil]
      exact fun habs => hp habs.symm
    · intro _
      trivial
  | cons hd tl ih =>
    constructor
    · intro h j
      unfold firstIdx at h
      split at h
      · exact absurd h (by simp)
      · rename_i hcond
        cases j with
        | zero => simpa using hcond
        | succ k =>
          have := (ih.mp (by simpa using h)) k
          simpa using this
    · intro h
      unfold firstIdx
      rw [if_neg (by simpa using h 0)]
      have := ih.mpr (fun k => by simpa using h (k + 1))
      simp [this]

theorem firstIdx_append_self_none (F : List Nat) (h24 : 24 ≤ F.length)
    (hnone : firstIdx F sufAA55 = none)
    (hlast : F.drop (F.length - 4) = suf9966) :
    firstIdx (F ++ F) sufAA55 = none := by
  have hiff : ∀ j, (F.drop j).take 4 ≠ sufAA55 :=
    (firstIdx_none_iff F sufAA55 (by simp [sufAA55])).mp hnone
  rw [firstIdx_none_iff _ _ (by simp [sufAA55])]
  intro j
  show ((F ++ F).drop j).take 4 ≠ sufAA55
  rcases Nat.lt_or_ge j (F.length - 3) with hj | hj
  · have hdrop : (F ++ F).drop j = F.drop j ++ F := by
      rw [List.drop_append_eq_append_drop]
      have h0 : j - F.length = 0 := by omega
      rw [h0, List.drop_zero]
    rw [hdrop, List.take_append_eq_append_take]
    have h0 : 4 - (F.drop j).length = 0 := by
      simp only [List.length_drop]
      omega
    rw [h0, List.take_zero, List.append_nil]
    exact hiff j
  · rcases Nat.lt_or_ge j F.length with hjlt | hjge
    · -- boundary windows overlap the suffix of the first copy
      have hdrop : (F ++ F).drop j = F.drop j ++ F := by
        rw [List.drop_append_eq_append_drop]
        have h0 : j - F.length = 0 := by omega
        rw [h0, List.drop_zero]
      have hstep : ∀ m, m ≤ 4 → F.drop (F.length - 4 + m) = suf9966.drop m := by
        intro m _
        rw [← List.drop_drop m (F.length - 4) F, hlast]
      have : j = F.length - 3 ∨ j = F.length - 2 ∨ j = F.length - 1 := by omega
      rcases this with rfl | rfl | rfl
      · have h1 : F.length - 3 = F.length - 4 + 1 := by omega
        rw [hdrop, h1, hstep 1 (by omega)]
        intro habs
        simp [suf9966, sufAA55] at habs
      · have h1 : F.length - 2 = F.length - 4 + 2 := by omega
        rw [hdrop, h1, hstep 2 (by omega)]
        intro habs
        simp [suf9966, sufAA55] at habs
      · have h1 : F.length - 1 = F.length - 4 + 3 := by omega
        rw [hdrop, h1, hstep 3 (by omega)]
        intro habs
        simp [suf9966, sufAA55] at habs
    · have hdrop : (F ++ F).drop j = F.drop (j - F.length) := by
        rw [List.drop_append_eq_append_drop, List.drop_eq_nil_of_le (by omega),
          List.nil_append]
      rw [hdrop]
      exact hiff (j - F.length)

theorem suffixScan_cases (F : List Nat) (h24 : 24 ≤ F.length)
    (hscan : suffixScan F = (F.length : Int) - 4) :
    firstIdx F sufAA55 = some (F.length - 4)
    ∨ (firstIdx F sufAA55 = none ∧ firstIdx F suf9966 = some (F.length - 4)) := by
  unfold suffixScan at hscan
  rcases h1 : firstIdx F sufAA55 with _ | i <;> simp only [h1] at hscan
  · rcases h2 : firstIdx F suf9966 with _ | i <;> simp only [h2] at hscan
    · exact absurd hscan (by omega)
    · right
      refine ⟨rfl, ?_⟩
      congr 1
      omega
  · left
    congr 1
    omega

theorem suffixScan_append_self (F : List Nat) (h24 : 24 ≤ F.length)
    (hscan : suffixScan F = (F.length : Int) - 4) :
    suffixScan (F ++ F) = (F.length : Int) - 4 := by
  rcases suffixScan_cases F h24 hscan with hA | ⟨hnone, h9⟩
  · have := firstIdx_append_some F F sufAA55 _ hA
    unfold suffixScan
    simp only [this]
    omega
  · have hlast : F.drop (F.length - 4) = suf9966 := by
      have hspec := firstIdx_spec F suf9966 _ h9
      have hlen : (F.drop (F.length - 4)).length ≤ suf9966.length := by
        simp only [List.length_drop, suf9966, List.length_cons]
        simp
        omega
      rw [List.take_of_length_le hlen] at hspec
      exact hspec
    have hA := firstIdx_append_self_none F h24 hnone hlast
    have h9' := firstIdx_append_some F F suf9966 _ h9
    unfold suffixScan
    simp only [hA, h9']
    omega

/-! ### C2 — parsing a doubled frame -/

theorem jsIdx_left_len (F G : List Nat) :
    jsIdx (F ++ G).length (F.length : Int) = F.length := by
  unfold jsIdx
  rw [if_neg (by omega), Int.toNat_natCast]
  exact Nat.min_eq_left (by simp)

theorem jsIdx_full_len (b : List Nat) : jsIdx b.length (b.length : Int) = b.length := by
  unfold jsIdx
  rw [if_neg (by omega), Int.toNat_natCast]
  exact Nat.min_self _

theorem jsSlice_append_left (F G : List Nat) :
    jsSlice (F ++ G) 0 (F.length : Int) = F := by
  have h0 : jsIdx (F ++ G).length 0 = 0 := by simp [jsIdx]
  simp only [jsSlice, h0, jsIdx_left_len, List.drop_zero, List.take_append_eq_append_take]
  simp

theorem jsSliceFrom_append_left (F G : List Nat) :
    jsSliceFrom (F ++ G) (F.length : Int) = G := by
  simp only [jsSliceFrom, jsSlice, jsIdx_left_len, jsIdx_full_len, List.take_length]
  rw [List.drop_append_eq_append_drop, List.drop_eq_nil_of_le (by omega), List.nil_append,
    Nat.sub_self, List.drop_zero]

/-! ### Segment access lemmas for frame-shaped buffers -/

theorem take_append_add (A B : List Nat) (k : Nat) :
    (A ++ B).take (A.length + k) = A ++ B.take k := by
  rw [List.take_append_eq_append_take, List.take_of_length_le (by omega)]
  congr 2
  omega

theorem drop_append_exact (A B : List Nat) (k : Nat) (h : k = A.length) :
    (A ++ B).drop k = B := by
  subst h
  rw [List.drop_append_eq_append_drop, List.drop_eq_nil_of_le (le_refl _),
    List.nil_append, Nat.sub_self, List.drop_zero]

theorem jsSlice_take_drop (b : List Nat) (s e : Int) (hs : 0 ≤ s) (hse : s ≤ e)
    (he : e ≤ (b.length : Int)) :
    jsSlice b s e = (b.take e.toNat).drop s.toNat := by
  unfold jsSlice jsIdx
  have h1 : e.toNat.min b.length = e.toNat := Nat.min_eq_left (by omega)
  have h2 : s.toNat.min b.length = s.toNat := Nat.min_eq_left (by omega)
  rw [if_neg (by omega), if_neg (by omega), h1, h2]

theorem readU32_seg (pre rest : List Nat) (w : Nat) (o : Nat) (ho : o = pre.length) :
    readU32 (pre ++ (u32be w ++ rest)) o = .ok (w % 2 ^ 32) := by
  subst ho
  rw [readU32_append_right _ _ _ (le_refl _), Nat.sub_self, readU32_append_u32be]

theorem readU32I_last_seg (pre : List Nat) (w : Nat) (o : Int)
    (ho : o = (pre.length : Int)) :
    readU32I (pre ++ u32be w) o = .ok (w % 2 ^ 32) := by
  subst ho
  rw [readU32I, if_pos (by omega), Int.toNat_natCast,
    readU32_append_right _ _ _ (le_refl _), Nat.sub_self]
  have := readU32_append_u32be w []
  simpa using this

theorem jsSlice_seg (pre mid rest : List Nat) (s e : Int)
    (hs : s = (pre.length : Int)) (he : e = (pre.length : Int) + (mid.length : Int)) :
    jsSlice (pre ++ (mid ++ rest)) s e = mid := by
  subst hs he
  rw [jsSlice_take_drop _ _ _ (by omega) (by omega)
    (by simp only [List.length_append]; omega)]
  rw [show ((pre.length : Int) + (mid.length : Int)).toNat = pre.length + mid.length
    by omega]
  have htl : (mid ++ rest).take mid.length = mid := by
    have := take_append_add mid rest 0
    simpa using this
  rw [Int.toNat_natCast, take_append_add, htl, drop_append_exact _ _ _ rfl]

theorem jsSlice_pre_seg (pre rest : List Nat) (e : Int) (he : e = (pre.length : Int)) :
    jsSlice (pre ++ rest) 0 e = pre := by
  subst he
  rw [jsSlice_take_drop _ _ _ (by omega) (by omega)
    (by simp only [List.length_append]; omega)]
  rw [Int.toNat_natCast]
  have : (pre ++ rest).take pre.length = pre := by
    have := take_append_add pre rest 0
    simpa using this
  rw [this]
  rfl

/-- The signed 32-bit value of four big-endian bytes (what `readInt32BE`
yields on them). -/
def i32val (c0 c1 c2 c3 : Nat) : Int :=
  let ec : Nat := c0 * 2 ^ 24 + c1 * 2 ^ 16 + c2 * 2 ^ 8 + c3
  if ec < 2 ^ 31 then (ec : Int) else (ec : Int) - 2 ^ 32

/-- `parseBody` on a pre-3.4-layout frame
`prefix ++ seq ++ cmd ++ size ++ payload ++ crc ++ suffix`:
the headers are read back, and the result hinges on the stored CRC word
matching `crc32` of the bytes up to the payload; the return-code probe of
the payload's first word decides whether 4 leading payload bytes are
dropped. -/
theorem parseBody_pre34_shape (pr : Prims) (st : CipherState)
    (hver : st.version = .v31 ∨ st.version = .v32 ∨ st.version = .v33)
    (seq cmd : Nat) (hseq : seq < 2 ^ 32) (hcmd : cmd < 2 ^ 32)
    (payload : List Nat) (hp4 : 4 ≤ payload.length)
    (hn : payload.length + 8 < 2 ^ 32)
    (rc : Nat) (hrc : readU32 payload 0 = .ok rc)
    (c0 c1 c2 c3 : Nat) (B : List Nat)
    (hB : B = u32be 0x000055AA ++ (u32be seq ++ (u32be cmd ++
      (u32be (payload.length + 8) ++
        (payload ++ ([c0, c1, c2, c3] ++ u32be 0x0000AA55)))))) :
    parseBody pr st B =
      if i32val c0 c1 c2 c3 = pr.crc32 (u32be 0x000055AA ++ (u32be seq ++ (u32be cmd ++
          (u32be (payload.length + 8) ++ payload)))) then
        .ok ((if rc &&& 0xFFFFFF00 ≠ 0 then payload else payload.drop 4), cmd, seq)
      else .error .crcMismatch := by
  subst hB
  have hv34 : st.version ≠ .v34 := by rcases hver with h | h | h <;> rw [h] <;> simp
  have hv35 : st.version ≠ .v35 := by rcases hver with h | h | h <;> rw [h] <;> simp
  set n := payload.length with hn'
  set B := u32be 0x000055AA ++ (u32be seq ++ (u32be cmd ++ (u32be (n + 8) ++
    (payload ++ ([c0, c1, c2, c3] ++ u32be 0x0000AA55))))) with hB
  have hlenB : B.length = n + 24 := by
    simp only [hB, List.length_append, u32be_length, List.length_cons,
      List.length_nil]
    omega
  -- the suffix word
  have hsfx : readU32I B ((B.length : Int) - 4) = .ok 0x0000AA55 := by
    have hassoc : B = (u32be 0x000055AA ++ (u32be seq ++ (u32be cmd ++ (u32be (n + 8) ++
        (payload ++ [c0, c1, c2, c3]))))) ++ u32be 0x0000AA55 := by
      simp [hB, List.append_assoc]
    rw [hassoc, readU32I_last_seg]
    · norm_num
    · rw [← hassoc, hlenB]
      simp only [List.length_append, u32be_length, List.length_cons, List.length_nil]
      push_cast
      omega
  -- the three header reads
  have hseq4 : readU32 B 4 = .ok seq := by
    rw [hB, readU32_seg _ _ _ _ (by simp [u32be_length]), Nat.mod_eq_of_lt hseq]
  have hcmd8 : readU32 B 8 = .ok cmd := by
    have hassoc : B = (u32be 0x000055AA ++ u32be seq) ++ (u32be cmd ++
        (u32be (n + 8) ++ (payload ++ ([c0, c1, c2, c3] ++ u32be 0x0000AA55)))) := by
      simp [hB, List.append_assoc]
    rw [hassoc, readU32_seg _ _ _ _ (by simp [u32be_length]), Nat.mod_eq_of_lt hcmd]
  have hps12 : readU32 B 12 = .ok (n + 8) := by
    have hassoc : B = (u32be 0x000055AA ++ (u32be seq ++ u32be cmd)) ++
        (u32be (n + 8) ++ (payload ++ ([c0, c1, c2, c3] ++ u32be 0x0000AA55))) := by
      simp [hB, List.append_assoc]
    rw [hassoc, readU32_seg _ _ _ _ (by simp [u32be_length]), Nat.mod_eq_of_lt hn]
  have hrc16 : readU32 B 16 = .ok rc := by
    have hassoc : B = (u32be 0x000055AA ++ (u32be seq ++ (u32be cmd ++ u32be (n + 8)))) ++
        (payload ++ ([c0, c1, c2, c3] ++ u32be 0x0000AA55)) := by
      simp [hB, List.append_assoc]
    rw [hassoc, readU32_append_right _ _ _ (by simp [u32be_length]),
      readU32_append_left _ _ _ (by simp [u32be_length]; omega)]
    exact hrc
  -- the stored CRC word
  have hcrcRead : readI32 B (16 + ((n + 8 : Nat) : Int) - 8) = .ok (i32val c0 c1 c2 c3) := by
    have hassoc : B = (u32be 0x000055AA ++ (u32be seq ++ (u32be cmd ++ (u32be (n + 8) ++
        payload)))) ++ ([c0, c1, c2, c3] ++ u32be 0x0000AA55) := by
      simp [hB, List.append_assoc]
    have hplen : (u32be 0x000055AA ++ (u32be seq ++ (u32be cmd ++ (u32be (n + 8) ++
        payload)))).length = n + 16 := by
      simp [u32be_length]
      omega
    rw [readI32, readU32I, if_pos (by push_cast; omega)]
    rw [show (16 + ((n + 8 : Nat) : Int) - 8).toNat = n + 16 by push_cast; omega]
    rw [hassoc, readU32_append_right _ _ _ (by rw [hplen]),
      show n + 16 - (u32be 0x000055AA ++ (u32be seq ++ (u32be cmd ++ (u32be (n + 8) ++
        payload)))).length = 0 by rw [hplen]; omega]
    simp only [readU32, List.cons_append, List.drop_zero, List.take_succ_cons,
      List.take_zero, i32val]
    simp [Bind.bind, Except.bind, Pure.pure, Except.pure]
  -- the CRC input slice
  have hcrcSlice : jsSlice B 0 (((n + 8 : Nat) : Int) + 8) =
      u32be 0x000055AA ++ (u32be seq ++ (u32be cmd ++ (u32be (n + 8) ++ payload))) := by
    have hassoc : B = (u32be 0x000055AA ++ (u32be seq ++ (u32be cmd ++ (u32be (n + 8) ++
        payload)))) ++ ([c0, c1, c2, c3] ++ u32be 0x0000AA55) := by
      simp [hB, List.append_assoc]
    rw [hassoc, jsSlice_pre_seg]
    simp [u32be_length]
    push_cast
    omega
  -- the two payload slices
  have hpay16 : jsSlice B 16 (16 + ((n + 8 : Nat) : Int) - 8) = payload := by
    have hassoc : B = (u32be 0x000055AA ++ (u32be seq ++ (u32be cmd ++ u32be (n + 8)))) ++
        (payload ++ ([c0, c1, c2, c3] ++ u32be 0x0000AA55)) := by
      simp [hB, List.append_assoc]
    rw [hassoc, jsSlice_seg] <;> simp [u32be_length] <;> push_cast <;> omega
  have hpay20 : jsSlice B 20 (16 + ((n + 8 : Nat) : Int) - 8) = payload.drop 4 := by
    have hsplit : payload = payload.take 4 ++ payload.drop 4 :=
      (List.take_append_drop 4 payload).symm
    have hassoc : B = ((u32be 0x000055AA ++ (u32be seq ++ (u32be cmd ++ u32be (n + 8)))) ++
        payload.take 4) ++ (payload.drop 4 ++ ([c0, c1, c2, c3] ++ u32be 0x0000AA55)) := by
      conv_lhs => rw [hB, hsplit]
      simp only [List.append_assoc]
    rw [hassoc, jsSlice_seg] <;>
      simp [u32be_length, List.length_take, List.length_drop] <;> push_cast <;> omega
  -- now evaluate the body
  unfold parseBody
  rw [hsfx]
  simp only
  rw [if_neg (by norm_num)]
  simp only [if_true, ite_true]
  unfold readHeaderAA55
  rw [hseq4, hcmd8, hps12]
  simp only
  rw [if_neg (by rw [hlenB]; push_cast; omega)]
  simp only
  rw [hrc16]
  simp only
  rw [if_neg hv35]
  simp only [hv34, hv35, false_and, if_false, ite_false, hpay16, hpay20]
  rw [hcrcRead]
  simp only
  rw [hcrcSlice]
  by_cases hcrc : i32val c0 c1 c2 c3 = pr.crc32 (u32be 0x000055AA ++ (u32be seq ++
      (u32be cmd ++ (u32be (n + 8) ++ payload))))
  · rw [if_neg (not_not_intro hcrc), if_pos hcrc, if_pos hv35]
  · rw [if_pos hcrc, if_neg hcrc, if_pos hv35]

/-- `parseBody` on a 3.4-layout frame
`prefix ++ seq ++ cmd ++ size ++ payload ++ hmac ++ suffix` for a
non-discovery command: the result hinges on the hex of the stored 32-byte
trailer matching the hex of the HMAC of the bytes up to the payload. -/
theorem parseBody_34_shape (pr : Prims) (st : CipherState)
    (hver : st.version = .v34)
    (seq cmd : Nat) (hseq : seq < 2 ^ 32) (hcmd : cmd < 2 ^ 32)
    (hnd : ¬(cmd = 0 ∨ cmd = 19 ∨ cmd = 35))
    (payload : List Nat) (hp4 : 4 ≤ payload.length)
    (hn : payload.length + 36 < 2 ^ 32)
    (rc : Nat) (hrc : readU32 payload 0 = .ok rc)
    (hm : List Nat) (hhm : hm.length = 32) (B : List Nat)
    (hB : B = u32be 0x000055AA ++ (u32be seq ++ (u32be cmd ++
      (u32be (payload.length + 36) ++ (payload ++ (hm ++ u32be 0x0000AA55)))))) :
    parseBody pr st B =
      if hexOf hm ≠ hexOf (cipherHmac pr st (u32be 0x000055AA ++ (u32be seq ++ (u32be cmd ++
          (u32be (payload.length + 36) ++ payload))))) then
        .error .hmacMismatch
      else
        .ok ((if rc &&& 0xFFFFFF00 ≠ 0 then payload else payload.drop 4), cmd, seq) := by
  subst hB
  have hv35 : st.version ≠ .v35 := by rw [hver]; simp
  set n := payload.length with hn'
  set B := u32be 0x000055AA ++ (u32be seq ++ (u32be cmd ++ (u32be (n + 36) ++
    (payload ++ (hm ++ u32be 0x0000AA55))))) with hB
  have hlenB : B.length = n + 52 := by
    simp only [hB, List.length_append, u32be_length, hhm]
    omega
  have hsfx : readU32I B ((B.length : Int) - 4) = .ok 0x0000AA55 := by
    have hassoc : B = (u32be 0x000055AA ++ (u32be seq ++ (u32be cmd ++ (u32be (n + 36) ++
        (payload ++ hm))))) ++ u32be 0x0000AA55 := by
      simp [hB, List.append_assoc]
    rw [hassoc, readU32I_last_seg]
    · norm_num
    · rw [← hassoc, hlenB]
      simp only [List.length_append, u32be_length, hhm]
      push_cast
      omega
  have hseq4 : readU32 B 4 = .ok seq := by
    rw [hB, readU32_seg _ _ _ _ (by simp [u32be_length]), Nat.mod_eq_of_lt hseq]
  have hcmd8 : readU32 B 8 = .ok cmd := by
    have hassoc : B = (u32be 0x000055AA ++ u32be seq) ++ (u32be cmd ++
        (u32be (n + 36) ++ (payload ++ (hm ++ u32be 0x0000AA55)))) := by
      simp [hB, List.append_assoc]
    rw [hassoc, readU32_seg _ _ _ _ (by simp [u32be_length]), Nat.mod_eq_of_lt hcmd]
  have hps12 : readU32 B 12 = .ok (n + 36) := by
    have hassoc : B = (u32be 0x000055AA ++ (u32be seq ++ u32be cmd)) ++
        (u32be (n + 36) ++ (payload ++ (hm ++ u32be 0x0000AA55))) := by
      simp [hB, List.append_assoc]
    rw [hassoc, readU32_seg _ _ _ _ (by simp [u32be_length]), Nat.mod_eq_of_lt hn]
  have hrc16 : readU32 B 16 = .ok rc := by
    have hassoc : B = (u32be 0x000055AA ++ (u32be seq ++ (u32be cmd ++ u32be (n + 36)))) ++
        (payload ++ (hm ++ u32be 0x0000AA55)) := by
      simp [hB, List.append_assoc]
    rw [hassoc, readU32_append_right _ _ _ (by simp [u32be_length]),
      readU32_append_left _ _ _ (by simp [u32be_length]; omega)]
    exact hrc
  have hhmSlice : jsSlice B (16 + ((n + 36 : Nat) : Int) - 36) ((B.length : Int) - 4) = hm := by
    have hassoc : B = ((u32be 0x000055AA ++ (u32be seq ++ (u32be cmd ++ u32be (n + 36)))) ++
        payload) ++ (hm ++ u32be 0x0000AA55) := by
      simp [hB, List.append_assoc]
    rw [hlenB, hassoc, jsSlice_seg] <;>
      simp [u32be_length, hhm] <;> push_cast <;> omega
  have hinSlice : jsSlice B 0 (16 + ((n + 36 : Nat) : Int) - 36) =
      u32be 0x000055AA ++ (u32be seq ++ (u32be cmd ++ (u32be (n + 36) ++ payload))) := by
    have hassoc : B = (u32be 0x000055AA ++ (u32be seq ++ (u32be cmd ++ (u32be (n + 36) ++
        payload)))) ++ (hm ++ u32be 0x0000AA55) := by
      simp [hB, List.append_assoc]
    rw [hassoc, jsSlice_pre_seg]
    simp [u32be_length]
    push_cast
    omega
  have hpay16 : jsSlice B 16 (16 + ((n + 36 : Nat) : Int) - 36) = payload := by
    have hassoc : B = (u32be 0x000055AA ++ (u32be seq ++ (u32be cmd ++ u32be (n + 36)))) ++
        (payload ++ (hm ++ u32be 0x0000AA55)) := by
      simp [hB, List.append_assoc]
    rw [hassoc, jsSlice_seg] <;> simp [u32be_length] <;> push_cast <;> omega
  have hpay20 : jsSlice B 20 (16 + ((n + 36 : Nat) : Int) - 36) = payload.drop 4 := by
    have hsplit : payload = payload.take 4 ++ payload.drop 4 :=
      (List.take_append_drop 4 payload).symm
    have hassoc : B = ((u32be 0x000055AA ++ (u32be seq ++ (u32be cmd ++ u32be (n + 36)))) ++
        payload.take 4) ++ (payload.drop 4 ++ (hm ++ u32be 0x0000AA55)) := by
      conv_lhs => rw [hB, hsplit]
      simp only [List.append_assoc]
    rw [hassoc, jsSlice_seg] <;>
      simp [u32be_length, List.length_take, List.length_drop] <;> push_cast <;> omega
  have hc34 : st.version = Ver.v34 ∧ ¬(cmd = 0 ∨ cmd = 19 ∨ cmd = 35) := ⟨hver, hnd⟩
  have hcond : (st.version = Ver.v34 ∧ ¬(cmd = 0 ∨ cmd = 19 ∨ cmd = 35)) = True :=
    eq_true hc34
  unfold parseBody
  rw [hsfx]
  simp only
  rw [if_neg (by norm_num)]
  simp only [if_true, ite_true]
  unfold readHeaderAA55
  rw [hseq4, hcmd8, hps12]
  simp only
  rw [if_neg (by rw [hlenB]; push_cast; omega)]
  simp only
  rw [hrc16]
  simp only
  rw [if_neg hv35]
  simp only [hcond, if_true, ite_true]
  rw [hhmSlice, hinSlice, hpay16, hpay20]

theorem readU32_ok_of_le (b : List Nat) (o : Nat) (h : o + 4 ≤ b.length) :
    ∃ v, readU32 b o = .ok v := by
  have hlen : ((b.drop o).take 4).length = 4 := by
    simp only [List.length_take, List.length_drop]
    omega
  unfold readU32
  rcases hl : (b.drop o).take 4 with _ | ⟨b0, _ | ⟨b1, _ | ⟨b2, _ | ⟨b3, _ | ⟨b4, t⟩⟩⟩⟩⟩ <;>
    rw [hl] at hlen <;> simp at hlen
  exact ⟨_, rfl⟩

/-- `parseBody` on a 3.5-layout frame
`prefix6699 ++ 0000 ++ seq ++ cmd ++ size ++ iv ++ ct ++ tag ++ suffix9966`:
the sequence and command words are re-read from offsets 6 and 10, and the
payload handed back is everything between the 4-byte prefix and the 4-byte
suffix — the GCM tag is never checked here. -/
theorem parseBody_35_shape (pr : Prims) (st : CipherState)
    (hver : st.version = .v35)
    (seq cmd : Nat) (hseq : seq < 2 ^ 32) (hcmd : cmd < 2 ^ 32)
    (iv ct tag : List Nat) (hiv : iv.length = 12) (htag : tag.length = 16)
    (m : Nat) (hct : ct.length = m) (hm : m + 42 < 2 ^ 32) (B : List Nat)
    (hB : B = u32be 0x00006699 ++ ([0x00, 0x00] ++ (u32be seq ++ (u32be cmd ++
      (u32be (m + 28) ++ (iv ++ (ct ++ (tag ++ u32be 0x00009966)))))))) :
    parseBody pr st B =
      .ok ([0x00, 0x00] ++ (u32be seq ++ (u32be cmd ++ (u32be (m + 28) ++
        (iv ++ (ct ++ tag))))), cmd, seq) := by
  subst hB
  set B := u32be 0x00006699 ++ ([0x00, 0x00] ++ (u32be seq ++ (u32be cmd ++
    (u32be (m + 28) ++ (iv ++ (ct ++ (tag ++ u32be 0x00009966))))))) with hB
  have hlenB : B.length = m + 50 := by
    simp only [hB, List.length_append, u32be_length, List.length_cons,
      List.length_nil, hiv, htag, hct]
    omega
  have hsfx : readU32I B ((B.length : Int) - 4) = .ok 0x00009966 := by
    have hassoc : B = (u32be 0x00006699 ++ ([0x00, 0x00] ++ (u32be seq ++ (u32be cmd ++
        (u32be (m + 28) ++ (iv ++ (ct ++ tag))))))) ++ u32be 0x00009966 := by
      simp [hB, List.append_assoc]
    rw [hassoc, readU32I_last_seg]
    · norm_num
    · rw [← hassoc, hlenB]
      simp only [List.length_append, u32be_length, List.length_cons,
        List.length_nil, hiv, htag, hct]
      push_cast
      omega
  have hseq6 : readU32 B 6 = .ok seq := by
    have hassoc : B = (u32be 0x00006699 ++ [0x00, 0x00]) ++ (u32be seq ++ (u32be cmd ++
        (u32be (m + 28) ++ (iv ++ (ct ++ (tag ++ u32be 0x00009966)))))) := by
      simp [hB, List.append_assoc]
    rw [hassoc, readU32_seg _ _ _ _ (by simp [u32be_length]), Nat.mod_eq_of_lt hseq]
  have hcmd10 : readU32 B 10 = .ok cmd := by
    have hassoc : B = (u32be 0x00006699 ++ ([0x00, 0x00] ++ u32be seq)) ++ (u32be cmd ++
        (u32be (m + 28) ++ (iv ++ (ct ++ (tag ++ u32be 0x00009966))))) := by
      simp [hB, List.append_assoc]
    rw [hassoc, readU32_seg _ _ _ _ (by simp [u32be_length]), Nat.mod_eq_of_lt hcmd]
  have hps14 : readU32 B 14 = .ok (m + 28) := by
    have hassoc : B = (u32be 0x00006699 ++ ([0x00, 0x00] ++ (u32be seq ++ u32be cmd))) ++
        (u32be (m + 28) ++ (iv ++ (ct ++ (tag ++ u32be 0x00009966)))) := by
      simp [hB, List.append_assoc]
    rw [hassoc, readU32_seg _ _ _ _ (by simp [u32be_length]), Nat.mod_eq_of_lt (by omega)]
  obtain ⟨rc0, hrc0⟩ := readU32_ok_of_le B 16 (by omega)
  have hpay : jsSlice B 4 (4 + ((m + 42 : Nat) : Int)) =
      [0x00, 0x00] ++ (u32be seq ++ (u32be cmd ++ (u32be (m + 28) ++
        (iv ++ (ct ++ tag))))) := by
    have hassoc : B = u32be 0x00006699 ++ (([0x00, 0x00] ++ (u32be seq ++ (u32be cmd ++
        (u32be (m + 28) ++ (iv ++ (ct ++ tag)))))) ++ u32be 0x00009966) := by
      simp [hB, List.append_assoc]
    rw [hassoc, jsSlice_seg] <;>
      simp [u32be_length, hiv, htag, hct] <;> push_cast <;> omega
  -- the inner slices handed to the offset-6/10 re-reads
  have hslice6 : readU32 (jsSlice B 6 10) 0 = .ok seq := by
    have h6 : jsSlice B 6 10 = u32be seq := by
      have hassoc : B = (u32be 0x00006699 ++ [0x00, 0x00]) ++ (u32be seq ++ (u32be cmd ++
          (u32be (m + 28) ++ (iv ++ (ct ++ (tag ++ u32be 0x00009966)))))) := by
        simp [hB, List.append_assoc]
      rw [hassoc, jsSlice_seg] <;> simp [u32be_length]
    rw [h6, show u32be seq = u32be seq ++ [] by simp, readU32_append_u32be,
      Nat.mod_eq_of_lt hseq]
  have hslice10 : readU32 (jsSlice B 10 14) 0 = .ok cmd := by
    have h10 : jsSlice B 10 14 = u32be cmd := by
      have hassoc : B = (u32be 0x00006699 ++ ([0x00, 0x00] ++ u32be seq)) ++ (u32be cmd ++
          (u32be (m + 28) ++ (iv ++ (ct ++ (tag ++ u32be 0x00009966))))) := by
        simp [hB, List.append_assoc]
      rw [hassoc, jsSlice_seg] <;> simp [u32be_length]
    rw [h10, show u32be cmd = u32be cmd ++ [] by simp, readU32_append_u32be,
      Nat.mod_eq_of_lt hcmd]
  unfold parseBody
  rw [hsfx]
  simp only
  rw [if_neg (by norm_num)]
  rw [if_neg (by norm_num)]
  unfold readHeader9966
  rw [hseq6, hcmd10, hps14]
  simp only
  rw [if_neg (by rw [hlenB]; push_cast; omega)]
  simp only
  rw [hrc0]
  simp only
  rw [if_pos hver]
  rw [hslice6, hslice10]
  simp only
  rw [show ((m + 28 + 14 : Nat) : Int) = ((m + 42 : Nat) : Int) by push_cast; ring] at *
  rw [hpay]

/-- A well-formed single frame, as `parsePacket` accepts it with nothing
left over: long enough, a valid prefix word, the suffix scan finds its
marker exactly at the end, and the frame body parses. -/
def validFrame (pr : Prims) (st : CipherState) (F : List Nat) : Prop :=
  24 ≤ F.length
  ∧ (∃ p, readU32 F 0 = .ok p ∧ (p = 0x000055AA ∨ p = 0x00006699))
  ∧ suffixScan F = (F.length : Int) - 4
  ∧ (parseBody pr st F).isOk = true

theorem parsePacket_eq_ok (pr : Prims) (st : CipherState) (buffer : List Nat)
    (pfx : Nat) (body : List Nat × Nat × Nat)
    (h24 : 24 ≤ buffer.length) (hp : readU32 buffer 0 = .ok pfx)
    (hmagic : pfx = 0x000055AA ∨ pfx = 0x00006699)
    (hb : parseBody pr st (parseSplit buffer).1 = .ok body) :
    parsePacket pr st buffer =
      .ok ⟨body.1, (parseSplit buffer).2, some body.2.1, some body.2.2⟩ := by
  unfold parsePacket
  rw [if_neg (by omega)]
  simp only [hp]
  rw [if_neg (by rcases hmagic with rfl | rfl <;> simp)]
  simp only [hb]

theorem parseRecursive_ok_none (pr : Prims) (st : CipherState)
    (buffer : List Nat) (packets : List Packet) (result : RawPacket)
    (h : parsePacket pr st buffer = .ok result) (hl : result.leftover = none) :
    parseRecursive pr st buffer packets = .ok (packets ++
      [⟨getPayload pr st result.payload, result.leftover, result.commandByte,
        result.sequenceN⟩]) := by
  unfold parseRecursive
  split
  · rename_i e heq
    rw [h] at heq
    exact absurd heq (by simp)
  · rename_i r heq
    rw [h] at heq
    obtain rfl := Except.ok.inj heq
    split
    · rename_i l hleq
      rw [hl] at hleq
      exact absurd hleq (by simp)
    · rfl

theorem parseRecursive_ok_some (pr : Prims) (st : CipherState)
    (buffer : List Nat) (packets : List Packet) (result : RawPacket)
    (l : List Nat) (h : parsePacket pr st buffer = .ok result)
    (hl : result.leftover = some l) :
    parseRecursive pr st buffer packets = parseRecursive pr st l (packets ++
      [⟨getPayload pr st result.payload, result.leftover, result.commandByte,
        result.sequenceN⟩]) := by
  conv_lhs => unfold parseRecursive
  split
  · rename_i e heq
    rw [h] at heq
    exact absurd heq (by simp)
  · rename_i r heq
    rw [h] at heq
    obtain rfl := Except.ok.inj heq
    split
    · rename_i l' hleq
      rw [hl] at hleq
      obtain rfl := Option.some.inj hleq
      rfl
    · rename_i hleq
      rw [hl] at hleq
      exact absurd hleq (by simp)

/-- **C2.** For every valid encoded frame `F`, parsing `F ++ F` yields
exactly two packets, each equal in payload, commandByte and sequenceN to the
single packet obtained by parsing `F` alone (the first differs only in its
`leftover` slot, which holds the second copy). -/
theorem C2_parse_double_frame (pr : Prims) (st : CipherState) (F : List Nat)
    (hv : validFrame pr st F) :
    ∃ q : Packet, parse pr st F = .ok [q]
      ∧ parse pr st (F ++ F)
          = .ok [⟨q.payload, some F, q.commandByte, q.sequenceN⟩, q] := by
  obtain ⟨h24, ⟨pfx, hpfx, hmagic⟩, hscan, hbodyok⟩ := hv
  obtain ⟨body, hbody⟩ : ∃ body, parseBody pr st F = .ok body := by
    rcases hb : parseBody pr st F with e | body
    · rw [hb] at hbodyok
      simp [Except.isOk, Except.toBool] at hbodyok
    · exact ⟨body, rfl⟩
  have hsplitF : parseSplit F = (F, none) := by
    unfold parseSplit
    rw [hscan, if_neg (by simp)]
  have hpkF : parsePacket pr st F = .ok ⟨body.1, none, some body.2.1, some body.2.2⟩ := by
    have := parsePacket_eq_ok pr st F pfx body h24 hpfx hmagic
      (by rw [hsplitF]; exact hbody)
    rw [hsplitF] at this
    exact this
  have hscanFF := suffixScan_append_self F h24 hscan
  have hsplitFF : parseSplit (F ++ F) = (F, some F) := by
    unfold parseSplit
    rw [hscanFF, if_pos (by simp only [List.length_append]; omega)]
    have h4 : (F.length : Int) - 4 + 4 = (F.length : Int) := by omega
    rw [h4, jsSlice_append_left, jsSliceFrom_append_left]
  have hpfxFF : readU32 (F ++ F) 0 = .ok pfx := by
    rw [readU32_append_left F F 0 (by omega)]
    exact hpfx
  have hpkFF : parsePacket pr st (F ++ F)
      = .ok ⟨body.1, some F, some body.2.1, some body.2.2⟩ := by
    have := parsePacket_eq_ok pr st (F ++ F) pfx body
      (by simp only [List.length_append]; omega) hpfxFF hmagic
      (by rw [hsplitFF]; exact hbody)
    rw [hsplitFF] at this
    exact this
  refine ⟨⟨getPayload pr st body.1, none, some body.2.1, some body.2.2⟩, ?_, ?_⟩
  · unfold parse
    rw [parseRecursive_ok_none pr st F [] _ hpkF rfl]
    rfl
  · unfold parse
    rw [parseRecursive_ok_some pr st (F ++ F) [] _ F hpkFF rfl,
      parseRecursive_ok_none pr st F _ _ hpkF rfl]
    rfl

/-- A v3.1 parser state for witnesses. -/
def st31A : CipherState := ⟨keyA, .v31, none⟩

/-- A concrete valid 24-byte v3.1 frame: empty payload, zero CRC (matching
`toyPrims.crc32`). -/
def F31 : List Nat :=
  [0x00, 0x00, 0x55, 0xAA, 0, 0, 0, 1, 0, 0, 0, 7, 0, 0, 0, 8,
   0, 0, 0, 0, 0x00, 0x00, 0xAA, 0x55]

/-- Witness for C2 at a concrete frame. -/
theorem C2_parse_double_frame_witness :
    ∃ q : Packet, parse toyPrims st31A F31 = .ok [q]
      ∧ parse toyPrims st31A (F31 ++ F31)
          = .ok [⟨q.payload, some F31, q.commandByte, q.sequenceN⟩, q] :=
  C2_parse_double_frame toyPrims st31A F31
    ⟨by decide, ⟨0x000055AA, rfl, Or.inl rfl⟩, by decide, by decide⟩

/-- **C7 counterexample.** A malformed broadcast (3 bytes) fails both parse
attempts: the handler rejects `find()` and leaves both UDP listeners open,
so not every exit path of `find()` closes them. -/
theorem C7_counterexample :
    broadcastHandler toyPrims .v33 keyA keyA false (some keyA) none fs0 [1, 2, 3]
      = (fs0, .rejected .tooShort)
    ∧ fs0.listenerOpen = true ∧ fs0.listenerEncryptedOpen = true := by
  refine ⟨?_, rfl, rfl⟩
  unfold broadcastHandler parseFirst parse parseRecursive
  rfl

/-! ### Frame-level parsing and decryption lemmas for C4 and C1 -/

theorem parseSplit_self (b : List Nat) (h : suffixScan b = (b.length : Int) - 4) :
    parseSplit b = (b, none) := by
  unfold parseSplit
  rw [h, if_neg (by simp)]

theorem parsePacket_eq_err (pr : Prims) (st : CipherState) (buffer : List Nat)
    (pfx : Nat) (e : JsErr)
    (h24 : 24 ≤ buffer.length) (hp : readU32 buffer 0 = .ok pfx)
    (hmagic : pfx = 0x000055AA ∨ pfx = 0x00006699)
    (hb : parseBody pr st (parseSplit buffer).1 = .error e) :
    parsePacket pr st buffer = .error e := by
  unfold parsePacket
  rw [if_neg (by omega)]
  simp only [hp]
  rw [if_neg (by rcases hmagic with rfl | rfl <;> simp)]
  simp only [hb]

/-- `toString('hex')` is injective on byte lists. -/
theorem hexOf_inj (a : List Nat) : ∀ b : List Nat, isBytes a → isBytes b →
    hexOf a = hexOf b → a = b := by
  induction a with
  | nil =>
    intro b _ _ h
    cases b with
    | nil => rfl
    | cons y ys => simp [hexOf] at h
  | cons x xs ih =>
    intro b ha hb h
    cases b with
    | nil => simp [hexOf] at h
    | cons y ys =>
      simp only [hexOf, List.flatMap_cons, List.cons_append, List.nil_append] at h
      injection h with h1 h2
      injection h2 with h2 h3
      have hx : x < 256 := ha x (by simp)
      have hy : y < 256 := hb y (by simp)
      have hxy : x = y := by
        rw [Nat.mod_eq_of_lt hx, Nat.mod_eq_of_lt hy] at h1
        omega
      subst hxy
      have htl := ih ys (fun z hz => ha z (by simp [hz]))
        (fun z hz => hb z (by simp [hz])) (by simpa [hexOf] using h3)
      rw [htl]

/-- The stored-CRC word of an encoded pre-3.4 frame reads back as the
`ToInt32` of the raw CRC value. -/
theorem i32val_i32be (i : Int) :
    i32val ((i % 2 ^ 32).toNat / 2 ^ 24 % 256) ((i % 2 ^ 32).toNat / 2 ^ 16 % 256)
      ((i % 2 ^ 32).toNat / 2 ^ 8 % 256) ((i % 2 ^ 32).toNat % 256) = toI32 i := by
  have h0 : 0 ≤ i % 2 ^ 32 := Int.emod_nonneg i (by norm_num)
  have h1 : i % 2 ^ 32 < 2 ^ 32 := Int.emod_lt_of_pos i (by norm_num)
  set m := (i % 2 ^ 32).toNat with hm
  have hm32 : m < 2 ^ 32 := by omega
  have hmi : (m : Int) = i % 2 ^ 32 := by omega
  have hrec : m / 2 ^ 24 % 256 * 2 ^ 24 + m / 2 ^ 16 % 256 * 2 ^ 16 +
      m / 2 ^ 8 % 256 * 2 ^ 8 + m % 256 = m := by omega
  simp only [i32val, toI32, hrec]
  by_cases hsm : m < 2 ^ 31
  · rw [if_pos hsm, if_pos (by omega), hmi]
  · rw [if_neg hsm, if_neg (by omega), hmi]

theorem jsSliceFrom_seg (pre tl : List Nat) (s : Int) (hs : s = (pre.length : Int)) :
    jsSliceFrom (pre ++ tl) s = tl := by
  unfold jsSliceFrom
  rw [show pre ++ tl = pre ++ (tl ++ []) by simp]
  rw [jsSlice_seg] <;> simp [hs, List.length_append]

/-- `_decrypt35` on a frame payload of the shape `parsePacket` hands over for
a v3.5 frame: everything hinges on the stored GCM tag matching the computed
one over the 14-byte header as AAD. -/
theorem decrypt35_shape (pr : Prims) (st : CipherState)
    (seq cmd m : Nat) (iv ct tg : List Nat)
    (hiv : iv.length = 12) (htg : tg.length = 16) (hct : ct.length = m)
    (P : List Nat)
    (hP : P = [0x00, 0x00] ++ (u32be seq ++ (u32be cmd ++ (u32be (m + 28) ++
      (iv ++ (ct ++ tg)))))) :
    decrypt35 pr st P =
      if tg = pr.gcmTag st.getKey iv ([0x00, 0x00] ++ (u32be seq ++ (u32be cmd ++
          u32be (m + 28)))) ct then
        .ok (decryptPost pr st (jsSliceFrom (pr.gcmDec st.getKey iv ct) 4))
      else .error .decryptFailed := by
  subst hP
  set P := [0x00, 0x00] ++ (u32be seq ++ (u32be cmd ++ (u32be (m + 28) ++
    (iv ++ (ct ++ tg))))) with hP
  have hlenP : P.length = m + 42 := by
    simp only [hP, List.length_append, u32be_length, List.length_cons,
      List.length_nil, hiv, htg, hct]
    omega
  have hhd : jsSlice P 0 14 =
      [0x00, 0x00] ++ (u32be seq ++ (u32be cmd ++ u32be (m + 28))) := by
    have hassoc : P = ([0x00, 0x00] ++ (u32be seq ++ (u32be cmd ++ u32be (m + 28)))) ++
        (iv ++ (ct ++ tg)) := by
      simp [hP, List.append_assoc]
    rw [hassoc, jsSlice_pre_seg]
    simp [u32be_length]
  have hivS : jsSlice P 14 26 = iv := by
    have hassoc : P = ([0x00, 0x00] ++ (u32be seq ++ (u32be cmd ++ u32be (m + 28)))) ++
        (iv ++ (ct ++ tg)) := by
      simp [hP, List.append_assoc]
    rw [hassoc, jsSlice_seg] <;> simp [u32be_length, hiv]
  have htgS : jsSliceFrom P ((P.length : Int) - 16) = tg := by
    have hassoc : P = (([0x00, 0x00] ++ (u32be seq ++ (u32be cmd ++ u32be (m + 28)))) ++
        (iv ++ ct)) ++ tg := by
      simp [hP, List.append_assoc]
    rw [hlenP, hassoc, jsSliceFrom_seg]
    simp [u32be_length, hiv, hct]
    push_cast
    omega
  have hbodyS : jsSlice P 26 ((P.length : Int) - 16) = ct := by
    have hassoc : P = (([0x00, 0x00] ++ (u32be seq ++ (u32be cmd ++ u32be (m + 28)))) ++
        iv) ++ (ct ++ tg) := by
      simp [hP, List.append_assoc]
    rw [hlenP, hassoc, jsSlice_seg] <;>
      simp [u32be_length, hiv, hct] <;> push_cast <;> omega
  simp only [decrypt35]
  rw [htgS, hivS, hhd, hbodyS]

/-! ### C4 — byte mutations of the frame framing and integrity trailer -/

/-- **C4 (amended).** Mutation behaviour of the five mutated regions of a
valid frame.  (a) Any single-byte mutation of the 4-byte prefix makes
`parsePacket` fail with `prefixMismatch`.  (b) When the suffix marker is
destroyed (no occurrence of either marker remains), parsing throws a
`RangeError` — not `suffixMismatch`, which is unreachable.  (c) For
v3.1–v3.3, replacing the stored CRC word with one whose int32 value differs
from the CRC of the covered bytes fails with `crcMismatch`.  (d) For v3.4
(non-discovery command), replacing the 32-byte HMAC trailer with different
bytes fails with `hmacMismatch`.  (e) For v3.5, a frame whose stored GCM tag
does not match the computed one still **parses successfully**: the decrypt
failure is swallowed by `getPayload` and the packet is delivered with the
raw frame payload as its (string) payload. -/
theorem C4_mutation_errors (pr : Prims) (laws : PrimLaws pr) :
    (∀ (st : CipherState) (i v : Nat) (rest : List Nat), i < 4 → v < 256 →
      v ≠ [0x00, 0x00, 0x55, 0xAA].getD i 0 → 20 ≤ rest.length →
      parsePacket pr st (([0x00, 0x00, 0x55, 0xAA].set i v) ++ rest) =
        .error .prefixMismatch)
    ∧
    (∀ (st : CipherState) (B : List Nat), 24 ≤ B.length →
      readU32 B 0 = .ok 0x000055AA →
      firstIdx B sufAA55 = none → firstIdx B suf9966 = none →
      parsePacket pr st B = .error .rangeError)
    ∧
    (∀ (st : CipherState) (seq cmd rc c0 c1 c2 c3 : Nat) (payload B : List Nat),
      (st.version = .v31 ∨ st.version = .v32 ∨ st.version = .v33) →
      seq < 2 ^ 32 → cmd < 2 ^ 32 → 4 ≤ payload.length →
      payload.length + 8 < 2 ^ 32 → readU32 payload 0 = .ok rc →
      B = u32be 0x000055AA ++ (u32be seq ++ (u32be cmd ++
        (u32be (payload.length + 8) ++
          (payload ++ ([c0, c1, c2, c3] ++ u32be 0x0000AA55))))) →
      suffixScan B = (B.length : Int) - 4 →
      i32val c0 c1 c2 c3 ≠ pr.crc32 (u32be 0x000055AA ++ (u32be seq ++ (u32be cmd ++
        (u32be (payload.length + 8) ++ payload)))) →
      parsePacket pr st B = .error .crcMismatch)
    ∧
    (∀ (st : CipherState) (seq cmd rc : Nat) (payload hm B : List Nat),
      st.version = .v34 → ¬(cmd = 0 ∨ cmd = 19 ∨ cmd = 35) →
      seq < 2 ^ 32 → cmd < 2 ^ 32 → 4 ≤ payload.length →
      payload.length + 36 < 2 ^ 32 → readU32 payload 0 = .ok rc →
      hm.length = 32 → isBytes hm →
      hm ≠ cipherHmac pr st (u32be 0x000055AA ++ (u32be seq ++ (u32be cmd ++
        (u32be (payload.length + 36) ++ payload)))) →
      B = u32be 0x000055AA ++ (u32be seq ++ (u32be cmd ++
        (u32be (payload.length + 36) ++ (payload ++ (hm ++ u32be 0x0000AA55))))) →
      suffixScan B = (B.length : Int) - 4 →
      parsePacket pr st B = .error .hmacMismatch)
    ∧
    (∀ (st : CipherState) (seq cmd m : Nat) (iv ct tg B : List Nat),
      st.version = .v35 → seq < 2 ^ 32 → cmd < 2 ^ 32 →
      iv.length = 12 → tg.length = 16 → ct.length = m → m + 42 < 2 ^ 32 →
      tg ≠ pr.gcmTag st.getKey iv ([0x00, 0x00] ++ (u32be seq ++ (u32be cmd ++
        u32be (m + 28)))) ct →
      pr.jsonParse ([0x00, 0x00] ++ (u32be seq ++ (u32be cmd ++ (u32be (m + 28) ++
        (iv ++ (ct ++ tg)))))) = none →
      B = u32be 0x00006699 ++ ([0x00, 0x00] ++ (u32be seq ++ (u32be cmd ++
        (u32be (m + 28) ++ (iv ++ (ct ++ (tg ++ u32be 0x00009966))))))) →
      suffixScan B = (B.length : Int) - 4 →
      parse pr st B = .ok [⟨.str ([0x00, 0x00] ++ (u32be seq ++ (u32be cmd ++
        (u32be (m + 28) ++ (iv ++ (ct ++ tg)))))), none, some cmd, some seq⟩]) := by
  refine ⟨?_, ?_, ?_, ?_, ?_⟩
  · -- (a) prefix mutation
    intro st i v rest hi hv hvne hrest
    unfold parsePacket
    rw [if_neg (by simp only [List.length_append, List.length_set]; simp; omega)]
    interval_cases i <;> simp only [List.set, List.getD, List.get?] at hvne ⊢ <;>
      simp only [List.cons_append, readU32, List.drop_zero, List.take_succ_cons,
        List.take_zero] <;>
      [skip; skip; skip; skip] <;>
      rw [if_pos (by simp at hvne; omega)]
  · -- (b) suffix destroyed: RangeError instead of suffixMismatch
    intro st B h24 hp hA h9
    exact (parsePacket_no_suffix_rangeError pr st B h24 0x000055AA hp
      (Or.inl rfl) hA h9).2
  · -- (c) CRC word replaced
    intro st seq cmd rc c0 c1 c2 c3 payload B hver hseq hcmd hp4 hn hrc hB hscan hbad
    have hbody := parseBody_pre34_shape pr st hver seq cmd hseq hcmd payload hp4 hn
      rc hrc c0 c1 c2 c3 B hB
    rw [if_neg hbad] at hbody
    refine parsePacket_eq_err pr st B 0x000055AA .crcMismatch ?_ ?_ (Or.inl rfl) ?_
    · rw [hB]
      simp only [List.length_append, u32be_length, List.length_cons, List.length_nil]
      omega
    · rw [hB, readU32_append_u32be]
      norm_num
    · rw [parseSplit_self B hscan]
      exact hbody
  · -- (d) HMAC trailer replaced
    intro st seq cmd rc payload hm B hver hnd hseq hcmd hp4 hn hrc hhm hbytes hne hB hscan
    have hbody := parseBody_34_shape pr st hver seq cmd hseq hcmd hnd payload hp4 hn
      rc hrc hm hhm B hB
    have hhex : hexOf hm ≠ hexOf (cipherHmac pr st (u32be 0x000055AA ++ (u32be seq ++
        (u32be cmd ++ (u32be (payload.length + 36) ++ payload))))) := by
      intro heq
      exact hne (hexOf_inj hm _ hbytes (laws.hmac_isBytes _ _) heq)
    rw [if_pos hhex] at hbody
    refine parsePacket_eq_err pr st B 0x000055AA .hmacMismatch ?_ ?_ (Or.inl rfl) ?_
    · rw [hB]
      simp only [List.length_append, u32be_length, List.length_cons, List.length_nil]
      omega
    · rw [hB, readU32_append_u32be]
      norm_num
    · rw [parseSplit_self B hscan]
      exact hbody
  · -- (e) GCM tag replaced: parse still succeeds, payload falls back to string
    intro st seq cmd m iv ct tg B hver hseq hcmd hiv htg hct hm htagbad hnp hB hscan
    have hbody := parseBody_35_shape pr st hver seq cmd hseq hcmd iv ct tg hiv htg
      m hct hm B hB
    have hlenB : B.length = m + 50 := by
      rw [hB]
      simp only [List.length_append, u32be_length, List.length_cons,
        List.length_nil, hiv, htg, hct]
      omega
    set P := [0x00, 0x00] ++ (u32be seq ++ (u32be cmd ++ (u32be (m + 28) ++
      (iv ++ (ct ++ tg))))) with hP
    have hlenP : P.length = m + 42 := by
      simp only [hP, List.length_append, u32be_length, List.length_cons,
        List.length_nil, hiv, htg, hct]
      omega
    have hpk : parsePacket pr st B = .ok ⟨P, none, some cmd, some seq⟩ := by
      have := parsePacket_eq_ok pr st B 0x00006699 (P, cmd, seq) (by omega)
        (by rw [hB, readU32_append_u32be]; norm_num) (Or.inr rfl)
        (by rw [parseSplit_self B hscan]; exact hbody)
      rw [parseSplit_self B hscan] at this
      exact this
    have hgp : getPayload pr st P = .str P := by
      unfold getPayload
      rw [if_neg (by omega)]
      have hdec : cipherDecrypt pr st P = .error .decryptFailed := by
        unfold cipherDecrypt
        rw [hver]
        rw [decrypt35_shape pr st seq cmd m iv ct tg hiv htg hct P hP,
          if_neg htagbad]
      rw [hdec]
      simp only
      rw [if_neg (by
        intro hcon
        have := hcon.2
        simp only [decValLength, Option.some.injEq] at this
        omega)]
      simp only [hnp]
    unfold parse
    rw [parseRecursive_ok_none pr st B [] _ hpk rfl]
    simp only [List.nil_append]
    rw [hgp]

/-- A v3.5 cipher state with no session key, for witnesses. -/
def st35A : CipherState := ⟨keyA, .v35, none⟩

/-- C4 witness frames: a prefix-mutated buffer, a suffix-free buffer, a
pre-3.4 frame with a wrong CRC word, a v3.4 frame with a wrong HMAC trailer,
and a v3.5 frame with a wrong GCM tag (plus its inner payload). -/
def C4a : List Nat := ([0x00, 0x00, 0x55, 0xAA].set 2 0x56) ++ List.replicate 20 1

def C4b : List Nat := [0x00, 0x00, 0x55, 0xAA] ++ List.replicate 20 2

def C4cPay : List Nat := [1, 2, 3, 4]

def C4cB : List Nat := u32be 0x000055AA ++ (u32be 1 ++ (u32be 7 ++
  (u32be (C4cPay.length + 8) ++ (C4cPay ++ ([9, 9, 9, 9] ++ u32be 0x0000AA55)))))

def C4dHm : List Nat := List.replicate 32 5

def C4dB : List Nat := u32be 0x000055AA ++ (u32be 1 ++ (u32be 7 ++
  (u32be (C4cPay.length + 36) ++ (C4cPay ++ (C4dHm ++ u32be 0x0000AA55)))))

def C4eIv : List Nat := List.replicate 12 2

def C4eCt : List Nat := [1, 2, 3, 4]

def C4eTg : List Nat := List.replicate 16 3

def C4eP : List Nat := [0x00, 0x00] ++ (u32be 1 ++ (u32be 7 ++ (u32be 32 ++
  (C4eIv ++ (C4eCt ++ C4eTg)))))

def C4eB : List Nat := u32be 0x00006699 ++ ([0x00, 0x00] ++ (u32be 1 ++ (u32be 7 ++
  (u32be 32 ++ (C4eIv ++ (C4eCt ++ (C4eTg ++ u32be 0x00009966)))))))

/-- Witness for C4 at concrete mutated frames. -/
theorem C4_mutation_errors_witness :
    parsePacket toyPrims st34A C4a = .error .prefixMismatch
    ∧ parsePacket toyPrims st34A C4b = .error .rangeError
    ∧ parsePacket toyPrims st31A C4cB = .error .crcMismatch
    ∧ parsePacket toyPrims st34A C4dB = .error .hmacMismatch
    ∧ parse toyPrims st35A C4eB = .ok [⟨.str C4eP, none, some 7, some 1⟩] := by
  obtain ⟨ha, hb, hc, hd, he⟩ := C4_mutation_errors toyPrims toyPrims_laws
  refine ⟨?_, ?_, ?_, ?_, ?_⟩
  · exact ha st34A 2 0x56 (List.replicate 20 1) (by decide) (by decide) (by decide)
      (by decide)
  · exact hb st34A C4b (by decide) rfl (by decide) (by decide)
  · exact hc st31A 1 7 0x01020304 9 9 9 9 C4cPay C4cB (Or.inl rfl) (by decide)
      (by decide) (by decide) (by decide) rfl rfl (by decide) (by decide)
  · exact hd st34A 1 7 0x01020304 C4cPay C4dHm C4dB rfl (by decide) (by decide)
      (by decide) (by decide) (by decide) rfl (by decide) (by decide)
      (by decide) rfl (by decide)
  · exact he st35A 1 7 4 C4eIv C4eCt C4eTg C4eB rfl (by decide) (by decide)
      (by decide) (by decide) (by decide) (by decide) (by decide) rfl
      rfl (by decide)

/-- A valid 24-byte v3.1-layout frame, and a valid v3.5 frame whose GCM tag
matches the computed one, used to refute the original C4 wording. -/
def C4F : List Nat := [0x00, 0x00, 0x55, 0xAA, 0, 0, 0, 1, 0, 0, 0, 7,
  0, 0, 0, 8, 0, 0, 0, 0, 0x00, 0x00, 0xAA, 0x55]

def C4eGood : List Nat := u32be 0x00006699 ++ ([0x00, 0x00] ++ (u32be 1 ++
  (u32be 7 ++ (u32be 32 ++ (List.replicate 12 2 ++ ([1, 2, 3, 4] ++
    (List.replicate 16 0x42 ++ u32be 0x00009966)))))))

/-- **C4 counterexample.** The original wording fails twice.  A valid frame
whose suffix byte is mutated makes decoding throw a `RangeError`, not
`suffixMismatch`.  And a valid v3.5 frame whose GCM tag byte is mutated
still decodes successfully (no `DecryptError` escapes): `getPayload`
swallows the decrypt failure. -/
theorem C4_counterexample :
    (parse toyPrims st31A C4F).isOk = true
    ∧ parsePacket toyPrims st31A (C4F.set 22 0x00) = .error .rangeError
    ∧ (Except.error .rangeError : Except JsErr RawPacket) ≠ .error .suffixMismatch
    ∧ (parse toyPrims st35A C4eGood).isOk = true
    ∧ (parse toyPrims st35A (C4eGood.set 34 0x43)).isOk = true := by
  refine ⟨?_, rfl, by simp, ?_, ?_⟩
  · unfold parse parseRecursive
    rfl
  · unfold parse parseRecursive
    rfl
  · unfold parse parseRecursive
    rfl

/-! ### Lemmas for C1: the encode/decode roundtrip -/

/-- A 32-bit word whose bit 24 is set survives the `& 0xFFFFFF00`
return-code probe. -/
theorem land_mask_high_ne_zero (x : Nat) (hx : x / 2 ^ 24 % 2 = 1) :
    x &&& 0xFFFFFF00 ≠ 0 := by
  intro h0
  have hb : (x &&& 0xFFFFFF00).testBit 24 = true := by
    rw [Nat.testBit_land]
    have h1 : x.testBit 24 = true := by
      rw [Nat.testBit_to_div_mod]
      simpa using hx
    have h2 : (0xFFFFFF00 : Nat).testBit 24 = true := by decide
    rw [h1, h2]
    rfl
  rw [h0] at hb
  simp [Nat.zero_testBit] at hb

theorem pkcs7pad_length (b : List Nat) :
    (pkcs7pad b).length = b.length + (16 - b.length % 16) := by
  simp [pkcs7pad]

theorem pkcs7pad_length_mod (b : List Nat) : (pkcs7pad b).length % 16 = 0 := by
  rw [pkcs7pad_length]
  omega

theorem pkcs7pad_length_pos (b : List Nat) : (pkcs7pad b).length ≠ 0 := by
  rw [pkcs7pad_length]
  omega

theorem pkcs7pad_isBytes (b : List Nat) (hb : isBytes b) : isBytes (pkcs7pad b) := by
  intro x hx
  rcases List.mem_append.mp hx with h | h
  · exact hb x h
  · rw [List.eq_of_mem_replicate h]
    omega

theorem pkcs7unpad_pad (b : List Nat) : pkcs7unpad (pkcs7pad b) = some b := by
  set k := 16 - b.length % 16 with hk
  have hk1 : 1 ≤ k := by omega
  have hk16 : k ≤ 16 := by omega
  have hlast : (pkcs7pad b).getLast? = some k := by
    rw [pkcs7pad, ← hk, List.getLast?_append_of_ne_nil _ (by
      intro h
      have := congrArg List.length h
      simp [List.length_replicate] at this
      omega)]
    rw [List.getLast?_replicate]
    rw [if_neg (by omega)]
  have hlen : (pkcs7pad b).length = b.length + k := by
    simp [pkcs7pad, ← hk]
  unfold pkcs7unpad
  rw [hlast]
  simp only
  rw [if_pos ?_]
  · rw [hlen, show b.length + k - k = b.length by omega, pkcs7pad, ← hk,
      List.take_left' rfl]
  · refine ⟨hk1, hk16, by omega, ?_⟩
    rw [hlen, show b.length + k - k = b.length by omega, pkcs7pad, ← hk,
      List.drop_left' rfl]
    simp [List.all_eq_true]

/-- `pad34` is the same padding as PKCS#7. -/
theorem pad34_eq_pkcs7pad (b : List Nat) : pad34 b = pkcs7pad b := rfl

/-- The v3.4 pad removal inverts the v3.4 pre-padding. -/
theorem strip34_pad34 (b : List Nat) : strip34 (pad34 b) = b := by
  set k := 16 - b.length % 16 with hk
  have hk1 : 1 ≤ k := by omega
  have hk16 : k ≤ 16 := by omega
  have hlast : (pad34 b).getLast? = some k := by
    rw [pad34, ← hk, List.getLast?_append_of_ne_nil _ (by
      intro h
      have := congrArg List.length h
      simp [List.length_replicate] at this
      omega)]
    rw [List.getLast?_replicate]
    rw [if_neg (by omega)]
  have hlen : (pad34 b).length = b.length + k := by
    simp [pad34, ← hk]
  unfold strip34
  rw [hlast]
  simp only
  rw [jsSlice_zero_sub, if_pos (by omega), hlen,
    show b.length + k - k = b.length by omega, pad34, ← hk, List.take_left' rfl]

theorem jsSliceFrom_drop (b : List Nat) (s : Int) (h0 : 0 ≤ s)
    (hs : s ≤ (b.length : Int)) :
    jsSliceFrom b s = b.drop s.toNat := by
  unfold jsSliceFrom
  rw [jsSlice_take_drop b s (b.length : Int) h0 hs (le_refl _), Int.toNat_natCast,
    List.take_length]

/-- JS `ToInt32` is idempotent. -/
theorem toI32_idem (x : Int) : toI32 (toI32 x) = toI32 x := by
  unfold toI32
  have h0 : 0 ≤ x % 2 ^ 32 := Int.emod_nonneg x (by norm_num)
  have h1 : x % 2 ^ 32 < 2 ^ 32 := Int.emod_lt_of_pos x (by norm_num)
  by_cases hx : x % 2 ^ 32 < 2 ^ 31
  · rw [if_pos hx, Int.emod_emod_of_dvd _ (dvd_refl _), if_pos hx]
  · rw [if_neg hx]
    have h2 : (x % 2 ^ 32 - 2 ^ 32) % 2 ^ 32 = x % 2 ^ 32 := by omega
    rw [h2, if_neg hx]

/-- Roundtrip through `_encodePre34`/`parse` for v3.2/v3.3 with a command
that carries the 15-byte version header: the parsed packet returns the
original JSON value. -/
theorem parse_encodePre34_3233 (pr : Prims) (laws : PrimLaws pr)
    (st : CipherState) (cmd seq : Nat) (j : J)
    (hver : st.version = .v32 ∨ st.version = .v33)
    (h10 : cmd ≠ 10) (h18 : cmd ≠ 18)
    (hseq : seq < 2 ^ 32) (hcmd : cmd < 2 ^ 32)
    (hb : isBytes (pr.jsonStringify j))
    (hsz : (pr.jsonStringify j).length + 39 < 2 ^ 32)
    (hjp : pr.jsonParse (pr.jsonStringify j) = some j)
    (hscan : suffixScan (encodePre34 pr st cmd seq true (pr.jsonStringify j)) =
      ((encodePre34 pr st cmd seq true (pr.jsonStringify j)).length : Int) - 4) :
    parse pr st (encodePre34 pr st cmd seq true (pr.jsonStringify j)) =
      .ok [⟨.json j, none, some cmd, some seq⟩] := by
  have hc : st.version = Ver.v33 ∨ st.version = Ver.v32 := hver.elim .inr .inl
  have hc3 : st.version = Ver.v31 ∨ st.version = Ver.v32 ∨ st.version = Ver.v33 :=
    hver.elim (fun h => Or.inr (Or.inl h)) (fun h => Or.inr (Or.inr h))
  have hv34 : st.version ≠ .v34 := by rcases hver with h | h <;> rw [h] <;> simp
  have hv35 : st.version ≠ .v35 := by rcases hver with h | h <;> rw [h] <;> simp
  obtain ⟨vb, hvB, hvb256⟩ : ∃ vb, st.version.bytes = [0x33, 0x2E, vb] ∧ vb < 256 := by
    rcases hver with h | h <;> rw [h] <;> exact ⟨_, rfl, by norm_num⟩
  set b := pr.jsonStringify j with hbdef
  set ct := pr.ecbEnc st.getKey (pkcs7pad b) with hct
  set payload := st.version.bytes ++ (List.replicate 12 0 ++ ct) with hpay
  set n := payload.length with hn
  set hd := u32be 0x000055AA ++ (u32be seq ++ (u32be cmd ++ u32be (n + 8))) with hhd
  set crcv := toI32 (pr.crc32 (hd ++ payload)) with hcrcv
  have hctlen : ct.length = b.length + (16 - b.length % 16) := by
    rw [hct, laws.ecbEnc_length, pkcs7pad_length]
  have hctdec : pr.ecbDec st.getKey ct = pkcs7pad b := by
    rw [hct]
    exact laws.ecb_roundtrip _ _ (pkcs7pad_isBytes b hb)
      (Nat.dvd_of_mod_eq_zero (pkcs7pad_length_mod b))
  have hnval : n = 15 + ct.length := by
    rw [hn, hpay, hvB]
    simp
    omega
  have hn8 : n + 8 < 2 ^ 32 := by omega
  have hp4 : 4 ≤ payload.length := by omega
  have hFdef : encodePre34 pr st cmd seq true b =
      hd ++ (payload ++ (i32be crcv ++ u32be 0x0000AA55)) := by
    unfold encodePre34 encryptPre34
    rw [if_pos hc, if_pos ⟨h10, h18⟩]
    rw [hcrcv, hhd, hpay, hct, hn, hpay, hct]
    simp [List.append_assoc]
  rw [hFdef] at hscan ⊢
  set c0 := (crcv % 2 ^ 32).toNat / 2 ^ 24 % 256 with hc0
  set c1 := (crcv % 2 ^ 32).toNat / 2 ^ 16 % 256 with hc1
  set c2 := (crcv % 2 ^ 32).toNat / 2 ^ 8 % 256 with hc2
  set c3 := (crcv % 2 ^ 32).toNat % 256 with hc3c
  have hassocF : hd ++ (payload ++ (i32be crcv ++ u32be 0x0000AA55)) =
      u32be 0x000055AA ++ (u32be seq ++ (u32be cmd ++ (u32be (n + 8) ++
        (payload ++ ([c0, c1, c2, c3] ++ u32be 0x0000AA55))))) := by
    rw [hhd, hc0, hc1, hc2, hc3c]
    simp [List.append_assoc, i32be, u32be]
  have hrc : readU32 payload 0 = .ok (0x33 * 2 ^ 24 + 0x2E * 2 ^ 16 + vb * 2 ^ 8 + 0) := by
    apply readU32_of_take_drop
    rw [hpay, hvB]
    rfl
  have hmask : (0x33 * 2 ^ 24 + 0x2E * 2 ^ 16 + vb * 2 ^ 8 + 0) &&& 0xFFFFFF00 ≠ 0 :=
    land_mask_high_ne_zero _ (by omega)
  have hcrcv' : crcv = pr.crc32 (hd ++ payload) := by
    rw [hcrcv, laws.crc32_int32]
  have hcrceq : i32val c0 c1 c2 c3 = pr.crc32 (u32be 0x000055AA ++ (u32be seq ++
      (u32be cmd ++ (u32be (n + 8) ++ payload)))) := by
    rw [hc0, hc1, hc2, hc3c, i32val_i32be]
    rw [show u32be 0x000055AA ++ (u32be seq ++ (u32be cmd ++ (u32be (n + 8) ++ payload)))
        = hd ++ payload from by rw [hhd]; simp [List.append_assoc]]
    rw [hcrcv, toI32_idem]
    exact laws.crc32_int32 _
  have hbody := parseBody_pre34_shape pr st hc3 seq cmd hseq hcmd payload hp4 hn8
    _ hrc c0 c1 c2 c3 _ hassocF
  rw [if_pos hcrceq, if_pos hmask] at hbody
  have hlenF : (hd ++ (payload ++ (i32be crcv ++ u32be 0x0000AA55))).length = n + 24 := by
    rw [hhd]
    simp only [List.length_append, u32be_length, i32be_length]
    omega
  have hpfx : readU32 (hd ++ (payload ++ (i32be crcv ++ u32be 0x0000AA55))) 0
      = .ok 0x000055AA := by
    rw [hassocF, readU32_append_u32be]
    norm_num
  have hpk : parsePacket pr st (hd ++ (payload ++ (i32be crcv ++ u32be 0x0000AA55)))
      = .ok ⟨payload, none, some cmd, some seq⟩ := by
    have := parsePacket_eq_ok pr st _ 0x000055AA (payload, cmd, seq)
      (by omega) hpfx (Or.inl rfl)
      (by rw [parseSplit_self _ hscan]; exact hbody)
    rw [parseSplit_self _ hscan] at this
    exact this
  have hgp : getPayload pr st payload = .json j := by
    unfold getPayload
    rw [if_neg (by omega)]
    have hdec : cipherDecrypt pr st payload = .ok (.json j) := by
      have hcd : cipherDecrypt pr st payload = decryptPre34 pr st payload := by
        rcases hver with hv | hv <;> rw [cipherDecrypt, hv]
      rw [hcd]
      unfold decryptPre34
      have htake : payload.take 3 = st.version.bytes := by
        rw [hpay, List.take_append_eq_append_take, List.take_of_length_le (by rw [hvB]; simp),
          show 3 - st.version.bytes.length = 0 from by rw [hvB]; rfl, List.take_zero,
          List.append_nil]
      rw [if_pos htake, if_pos hc]
      simp only [Bool.false_eq_true, if_false, ite_false]
      have hsl : jsSliceFrom payload 15 = ct := by
        rw [hpay, show st.version.bytes ++ (List.replicate 12 0 ++ ct)
            = (st.version.bytes ++ List.replicate 12 0) ++ ct from by
          simp [List.append_assoc]]
        rw [jsSliceFrom_seg]
        rw [hvB]
        rfl
      rw [hsl]
      unfold ecbDecPad
      rw [if_pos ⟨by omega, by omega⟩, hctdec, pkcs7unpad_pad]
      simp only [hjp]
    rw [hdec]
    simp only
    rw [if_neg (by
      intro hcon
      exact hv35 hcon.1)]
  unfold parse
  rw [parseRecursive_ok_none pr st _ [] _ hpk rfl]
  simp only [List.nil_append]
  rw [hgp]

/-- Roundtrip through `_encodePre34`/`parse` for v3.1 with encryption on:
the payload travels as `3.1 ++ md5 signature ++ base64 ciphertext` and the
parsed packet returns the original JSON value. -/
theorem parse_encodePre34_31 (pr : Prims) (laws : PrimLaws pr)
    (st : CipherState) (cmd seq : Nat) (j : J)
    (hver : st.version = .v31)
    (hseq : seq < 2 ^ 32) (hcmd : cmd < 2 ^ 32)
    (hb : isBytes (pr.jsonStringify j))
    (hjp : pr.jsonParse (pr.jsonStringify j) = some j)
    (hplen : (pr.b64enc (pr.ecbEnc st.getKey (pkcs7pad (pr.jsonStringify j)))).length
      + 27 < 2 ^ 32)
    (hscan : suffixScan (encodePre34 pr st cmd seq true (pr.jsonStringify j)) =
      ((encodePre34 pr st cmd seq true (pr.jsonStringify j)).length : Int) - 4) :
    parse pr st (encodePre34 pr st cmd seq true (pr.jsonStringify j)) =
      .ok [⟨.json j, none, some cmd, some seq⟩] := by
  have hc3 : st.version = Ver.v31 ∨ st.version = Ver.v32 ∨ st.version = Ver.v33 :=
    Or.inl hver
  have hcn : ¬(st.version = Ver.v33 ∨ st.version = Ver.v32) := by rw [hver]; simp
  have hv35 : st.version ≠ .v35 := by rw [hver]; simp
  have hvB : st.version.bytes = [0x33, 0x2E, 0x31] := by rw [hver]; rfl
  set b := pr.jsonStringify j with hbdef
  set ct := pr.ecbEnc st.getKey (pkcs7pad b) with hct
  set p := pr.b64enc ct with hpdef
  set sig := pr.md5sig (asciiDataEq ++ p ++ asciiLpvEq ++ st.version.bytes ++
    asciiBars ++ st.key) with hsig
  set payload := st.version.bytes ++ (sig ++ p) with hpay
  set n := payload.length with hn
  set hd := u32be 0x000055AA ++ (u32be seq ++ (u32be cmd ++ u32be (n + 8))) with hhd
  set crcv := toI32 (pr.crc32 (hd ++ payload)) with hcrcv
  have hsiglen : sig.length = 16 := by rw [hsig]; exact laws.md5sig_length _
  have hctdec : pr.ecbDec st.getKey ct = pkcs7pad b := by
    rw [hct]
    exact laws.ecb_roundtrip _ _ (pkcs7pad_isBytes b hb)
      (Nat.dvd_of_mod_eq_zero (pkcs7pad_length_mod b))
  have hctlen : ct.length = b.length + (16 - b.length % 16) := by
    rw [hct, laws.ecbEnc_length, pkcs7pad_length]
  have hb64 : pr.b64dec p = ct := by
    rw [hpdef, hct]
    exact laws.b64_roundtrip _ (laws.ecbEnc_isBytes _ _)
  have hnval : n = 19 + p.length := by
    rw [hn, hpay, hvB]
    simp only [List.length_append, List.length_cons, List.length_nil, hsiglen]
    omega
  have hn8 : n + 8 < 2 ^ 32 := by omega
  have hp4 : 4 ≤ payload.length := by omega
  have hFdef : encodePre34 pr st cmd seq true b =
      hd ++ (payload ++ (i32be crcv ++ u32be 0x0000AA55)) := by
    unfold encodePre34 encryptPre34
    rw [if_neg hcn, if_pos rfl]
    simp only [if_true, ite_true]
    rw [hcrcv, hhd, hpay, hsig, hpdef, hct, hn, hpay, hsig, hpdef, hct]
    simp [List.append_assoc]
  rw [hFdef] at hscan ⊢
  set c0 := (crcv % 2 ^ 32).toNat / 2 ^ 24 % 256 with hc0
  set c1 := (crcv % 2 ^ 32).toNat / 2 ^ 16 % 256 with hc1
  set c2 := (crcv % 2 ^ 32).toNat / 2 ^ 8 % 256 with hc2
  set c3 := (crcv % 2 ^ 32).toNat % 256 with hc3c
  have hassocF : hd ++ (payload ++ (i32be crcv ++ u32be 0x0000AA55)) =
      u32be 0x000055AA ++ (u32be seq ++ (u32be cmd ++ (u32be (n + 8) ++
        (payload ++ ([c0, c1, c2, c3] ++ u32be 0x0000AA55))))) := by
    rw [hhd, hc0, hc1, hc2, hc3c]
    simp [List.append_assoc, i32be, u32be]
  obtain ⟨s0, sigtl, hsig0⟩ : ∃ s0 sigtl, sig = s0 :: sigtl := by
    cases hcs : sig with
    | nil => rw [hcs] at hsiglen; simp at hsiglen
    | cons s0 tl => exact ⟨s0, tl, rfl⟩
  have hs0 : s0 < 256 := by
    have := laws.md5sig_isBytes (asciiDataEq ++ p ++ asciiLpvEq ++ st.version.bytes ++
      asciiBars ++ st.key) s0
    rw [← hsig, hsig0] at this
    exact this (by simp)
  have hrc : readU32 payload 0 =
      .ok (0x33 * 2 ^ 24 + 0x2E * 2 ^ 16 + 0x31 * 2 ^ 8 + s0) := by
    apply readU32_of_take_drop
    rw [hpay, hvB, hsig0]
    rfl
  have hmask : (0x33 * 2 ^ 24 + 0x2E * 2 ^ 16 + 0x31 * 2 ^ 8 + s0) &&& 0xFFFFFF00 ≠ 0 :=
    land_mask_high_ne_zero _ (by omega)
  have hcrcv' : crcv = pr.crc32 (hd ++ payload) := by
    rw [hcrcv, laws.crc32_int32]
  have hcrceq : i32val c0 c1 c2 c3 = pr.crc32 (u32be 0x000055AA ++ (u32be seq ++
      (u32be cmd ++ (u32be (n + 8) ++ payload)))) := by
    rw [hc0, hc1, hc2, hc3c, i32val_i32be]
    rw [show u32be 0x000055AA ++ (u32be seq ++ (u32be cmd ++ (u32be (n + 8) ++ payload)))
        = hd ++ payload from by rw [hhd]; simp [List.append_assoc]]
    rw [hcrcv, toI32_idem]
    exact laws.crc32_int32 _
  have hbody := parseBody_pre34_shape pr st hc3 seq cmd hseq hcmd payload hp4 hn8
    _ hrc c0 c1 c2 c3 _ hassocF
  rw [if_pos hcrceq, if_pos hmask] at hbody
  have hlenF : (hd ++ (payload ++ (i32be crcv ++ u32be 0x0000AA55))).length = n + 24 := by
    rw [hhd]
    simp only [List.length_append, u32be_length, i32be_length]
    omega
  have hpfx : readU32 (hd ++ (payload ++ (i32be crcv ++ u32be 0x0000AA55))) 0
      = .ok 0x000055AA := by
    rw [hassocF, readU32_append_u32be]
    norm_num
  have hpk : parsePacket pr st (hd ++ (payload ++ (i32be crcv ++ u32be 0x0000AA55)))
      = .ok ⟨payload, none, some cmd, some seq⟩ := by
    have := parsePacket_eq_ok pr st _ 0x000055AA (payload, cmd, seq)
      (by omega) hpfx (Or.inl rfl)
      (by rw [parseSplit_self _ hscan]; exact hbody)
    rw [parseSplit_self _ hscan] at this
    exact this
  have hgp : getPayload pr st payload = .json j := by
    unfold getPayload
    rw [if_neg (by omega)]
    have hdec : cipherDecrypt pr st payload = .ok (.json j) := by
      have hcd : cipherDecrypt pr st payload = decryptPre34 pr st payload := by
        rw [cipherDecrypt, hver]
      rw [hcd]
      unfold decryptPre34
      have htake : payload.take 3 = st.version.bytes := by
        rw [hpay, List.take_append_eq_append_take, List.take_of_length_le (by rw [hvB]; simp),
          show 3 - st.version.bytes.length = 0 from by rw [hvB]; rfl, List.take_zero,
          List.append_nil]
      rw [if_pos htake, if_neg hcn]
      simp only [if_true, ite_true]
      have hsl : jsSliceFrom payload 19 = p := by
        rw [hpay, show st.version.bytes ++ (sig ++ p)
            = (st.version.bytes ++ sig) ++ p from by simp [List.append_assoc]]
        rw [jsSliceFrom_seg]
        rw [hvB]
        simp [hsiglen]
      rw [hsl, hb64]
      unfold ecbDecPad
      rw [if_pos ⟨by omega, by omega⟩, hctdec, pkcs7unpad_pad]
      simp only [hjp]
    rw [hdec]
    simp only
    rw [if_neg (by
      intro hcon
      exact hv35 hcon.1)]
  unfold parse
  rw [parseRecursive_ok_none pr st _ [] _ hpk rfl]
  simp only [List.nil_append]
  rw [hgp]

/-- Roundtrip through `_encode34`/`parse` for v3.4 with a non-discovery,
non-header-exempt command: the parsed packet returns the original JSON value
after the `data`/`t` envelope unwrapping, provided the ciphertext's first
word survives the return-code probe. -/
theorem parse_encode34 (pr : Prims) (laws : PrimLaws pr)
    (st : CipherState) (cmd seq rc : Nat) (j ju : J) (F : List Nat)
    (hver : st.version = .v34)
    (hnd : ¬(cmd = 0 ∨ cmd = 19 ∨ cmd = 35))
    (hex : ¬headerExempt cmd)
    (hseq : seq < 2 ^ 32) (hcmd : cmd < 2 ^ 32)
    (hb : isBytes (pr.jsonStringify j))
    (hsz : (pr.jsonStringify j).length + 67 < 2 ^ 32)
    (hjp : pr.jsonParse (pr.jsonStringify j) = some j)
    (hunw : unwrapEnvelope j = .ok ju)
    (hrc : readU32 (pr.ecbEnc st.getKey (pad34 (st.version.bytes ++
      List.replicate 12 0 ++ pr.jsonStringify j))) 0 = .ok rc)
    (hmask : rc &&& 0xFFFFFF00 ≠ 0)
    (hE : encode34 pr st cmd seq (pr.jsonStringify j) = .ok F)
    (hscan : suffixScan F = (F.length : Int) - 4) :
    parse pr st F = .ok [⟨.json ju, none, some cmd, some seq⟩] := by
  have hv35 : st.version ≠ .v35 := by rw [hver]; simp
  have hvB : st.version.bytes = [0x33, 0x2E, 0x34] := by rw [hver]; rfl
  set b := pr.jsonStringify j with hbdef
  set payload0 := st.version.bytes ++ List.replicate 12 0 ++ b with hpay0
  set ct := pr.ecbEnc st.getKey (pad34 payload0) with hct
  set hd := u32be 0x000055AA ++ (u32be seq ++ (u32be cmd ++ u32be (ct.length + 0x24)))
    with hhd
  set hm := cipherHmac pr st (hd ++ ct) with hhm
  have hpay0len : payload0.length = 15 + b.length := by
    rw [hpay0, hvB]
    simp
    omega
  have hpay0bytes : isBytes payload0 := by
    intro x hx
    rw [hpay0] at hx
    rcases List.mem_append.mp hx with h | h
    · rcases List.mem_append.mp h with h2 | h2
      · rw [hvB] at h2
        simp at h2
        rcases h2 with h3 | h3 | h3 <;> omega
      · rw [List.eq_of_mem_replicate h2]
        omega
    · exact hb x h
  have hctlen : ct.length = payload0.length + (16 - payload0.length % 16) := by
    rw [hct, laws.ecbEnc_length, pad34_eq_pkcs7pad, pkcs7pad_length]
  have hctmod : ct.length % 16 = 0 := by
    rw [hct, laws.ecbEnc_length, pad34_eq_pkcs7pad]
    exact pkcs7pad_length_mod _
  have hctdec : pr.ecbDec st.getKey ct = pad34 payload0 := by
    rw [hct]
    exact laws.ecb_roundtrip _ _
      (by rw [pad34_eq_pkcs7pad]; exact pkcs7pad_isBytes _ hpay0bytes)
      (by rw [pad34_eq_pkcs7pad]; exact Nat.dvd_of_mod_eq_zero (pkcs7pad_length_mod _))
  have hhmlen : hm.length = 32 := by
    rw [hhm, cipherHmac]
    exact laws.hmac_length _ _
  have hn36 : ct.length + 36 < 2 ^ 32 := by omega
  have hp4 : 4 ≤ ct.length := by omega
  have halign : (pad34 payload0).length % 16 = 0 := by
    rw [pad34_eq_pkcs7pad]
    exact pkcs7pad_length_mod _
  have hFdef : F = hd ++ (ct ++ (hm ++ u32be 0x0000AA55)) := by
    have heq : encode34 pr st cmd seq b = .ok (hd ++ (ct ++ (hm ++ u32be 0x0000AA55))) := by
      unfold encode34 encrypt34
      rw [if_pos hex, ← hpay0]
      simp [halign, Bind.bind, Except.bind, Pure.pure, Except.pure, hhd, hhm, hct,
        cipherHmac, List.append_assoc]
    rw [heq] at hE
    exact (Except.ok.inj hE).symm
  rw [hFdef] at hscan ⊢
  have hassocF : hd ++ (ct ++ (hm ++ u32be 0x0000AA55)) =
      u32be 0x000055AA ++ (u32be seq ++ (u32be cmd ++ (u32be (ct.length + 36) ++
        (ct ++ (hm ++ u32be 0x0000AA55))))) := by
    rw [hhd]
    simp [List.append_assoc]
  have hbody := parseBody_34_shape pr st hver seq cmd hseq hcmd hnd ct hp4 hn36
    rc hrc hm hhmlen _ hassocF
  have hhex : ¬(hexOf hm ≠ hexOf (cipherHmac pr st (u32be 0x000055AA ++ (u32be seq ++
      (u32be cmd ++ (u32be (ct.length + 36) ++ ct)))))) := by
    rw [not_not, hhm, show hd ++ ct = u32be 0x000055AA ++ (u32be seq ++ (u32be cmd ++
      (u32be (ct.length + 36) ++ ct))) from by rw [hhd]; simp [List.append_assoc]]
  rw [if_neg hhex, if_pos hmask] at hbody
  have hlenF : (hd ++ (ct ++ (hm ++ u32be 0x0000AA55))).length = ct.length + 52 := by
    rw [hhd]
    simp only [List.length_append, u32be_length, hhmlen]
    omega
  have hpfx : readU32 (hd ++ (ct ++ (hm ++ u32be 0x0000AA55))) 0 = .ok 0x000055AA := by
    rw [hassocF, readU32_append_u32be]
    norm_num
  have hpk : parsePacket pr st (hd ++ (ct ++ (hm ++ u32be 0x0000AA55)))
      = .ok ⟨ct, none, some cmd, some seq⟩ := by
    have := parsePacket_eq_ok pr st _ 0x000055AA (ct, cmd, seq)
      (by omega) hpfx (Or.inl rfl)
      (by rw [parseSplit_self _ hscan]; exact hbody)
    rw [parseSplit_self _ hscan] at this
    exact this
  have hgp : getPayload pr st ct = .json ju := by
    unfold getPayload
    rw [if_neg (by omega)]
    have hdec : cipherDecrypt pr st ct = .ok (decryptPost pr st payload0) := by
      rw [cipherDecrypt, hver]
      unfold decrypt34
      rw [if_pos hctmod, hctdec, strip34_pad34]
    have hpost : decryptPost pr st payload0 = .json ju := by
      unfold decryptPost
      have htake : payload0.take 3 = st.version.bytes := by
        rw [hpay0, List.append_assoc, List.take_append_eq_append_take,
          List.take_of_length_le (by rw [hvB]; simp),
          show 3 - st.version.bytes.length = 0 from by rw [hvB]; rfl, List.take_zero,
          List.append_nil]
      rw [if_pos htake]
      have hsl : jsSliceFrom payload0 15 = b := by
        rw [hpay0, jsSliceFrom_seg]
        rw [hvB]
        simp
      rw [hsl]
      simp only [hjp]
      simp only [hunw]
    rw [hdec, hpost]
    simp only
    rw [if_neg (by
      intro hcon
      exact hv35 hcon.1)]
  unfold parse
  rw [parseRecursive_ok_none pr st _ [] _ hpk rfl]
  simp only [List.nil_append]
  rw [hgp]

/-- v3.5 `_encode35`/`parse`: the command and sequence number are recovered,
but the delivered payload is **not** the encoded JSON value: `_decrypt35`
strips 4 leading plaintext bytes (a return-code slot `_encode35` never
writes), so the packet carries the raw bytes `11 NULs ++ JSON text`. -/
theorem parse_encode35 (pr : Prims) (laws : PrimLaws pr)
    (st : CipherState) (cmd seq : Nat) (j : J) (nowIV : List Nat)
    (hver : st.version = .v35)
    (hex : ¬headerExempt cmd)
    (hseq : seq < 2 ^ 32) (hcmd : cmd < 2 ^ 32)
    (hb : isBytes (pr.jsonStringify j))
    (hiv : nowIV.length = 12)
    (hsz : (pr.jsonStringify j).length + 57 < 2 ^ 32)
    (hnp : pr.jsonParse (List.replicate 11 0 ++ pr.jsonStringify j) = none)
    (hscan : suffixScan (encode35 pr st cmd seq (pr.jsonStringify j) nowIV) =
      ((encode35 pr st cmd seq (pr.jsonStringify j) nowIV).length : Int) - 4) :
    parse pr st (encode35 pr st cmd seq (pr.jsonStringify j) nowIV) =
      .ok [⟨.raw (List.replicate 11 0 ++ pr.jsonStringify j), none,
        some cmd, some seq⟩] := by
  have hvB : st.version.bytes = [0x33, 0x2E, 0x35] := by rw [hver]; rfl
  set b := pr.jsonStringify j with hbdef
  set payload0 := st.version.bytes ++ List.replicate 12 0 ++ b with hpay0
  set L := payload0.length with hL
  set aad := [0x00, 0x00] ++ (u32be seq ++ (u32be cmd ++ u32be (L + 28))) with haad
  set ct := pr.gcmEnc st.getKey nowIV payload0 with hct
  set tg := pr.gcmTag st.getKey nowIV aad ct with htg
  have hpay0len : L = 15 + b.length := by
    rw [hL, hpay0, hvB]
    simp
    omega
  have hpay0bytes : isBytes payload0 := by
    intro x hx
    rw [hpay0] at hx
    rcases List.mem_append.mp hx with h | h
    · rcases List.mem_append.mp h with h2 | h2
      · rw [hvB] at h2
        simp at h2
        rcases h2 with h3 | h3 | h3 <;> omega
      · rw [List.eq_of_mem_replicate h2]
        omega
    · exact hb x h
  have hctlen : ct.length = L := by
    rw [hct, laws.gcmEnc_length, hL]
  have htglen : tg.length = 16 := by
    rw [htg]
    exact laws.gcmTag_length _ _ _ _
  have hm42 : L + 42 < 2 ^ 32 := by omega
  have hgdec : pr.gcmDec st.getKey nowIV ct = payload0 := by
    rw [hct]
    exact laws.gcm_roundtrip _ _ _ hpay0bytes
  have haadSlice : jsSlice (u32be 0x00006699 ++ (0 :: 0 :: (u32be seq ++
      (u32be cmd ++ u32be (L + 28))))) 4 18 = aad := by
    rw [show u32be 0x00006699 ++ (0 :: 0 :: (u32be seq ++ (u32be cmd ++
        u32be (L + 28)))) = u32be 0x00006699 ++ ((0 :: 0 :: (u32be seq ++
        (u32be cmd ++ u32be (L + 28)))) ++ []) from by simp]
    rw [show aad = 0 :: 0 :: (u32be seq ++ (u32be cmd ++ u32be (L + 28))) from by
      rw [haad]; rfl]
    rw [jsSlice_seg] <;> simp [u32be_length]
  have hFdef : encode35 pr st cmd seq b nowIV =
      u32be 0x00006699 ++ ([0x00, 0x00] ++ (u32be seq ++ (u32be cmd ++
        (u32be (L + 28) ++ (nowIV ++ (ct ++ (tg ++ u32be 0x00009966))))))) := by
    simp only [encode35, encrypt35]
    rw [if_pos hex, ← hpay0, ← hL]
    simp only [← hct]
    rw [show ([0x00, 0x00, 0x99, 0x66] : List Nat) = u32be 0x00009966 from rfl]
    simp [List.append_assoc, haadSlice, ← htg]
  rw [hFdef] at hscan ⊢
  have hbody := parseBody_35_shape pr st hver seq cmd hseq hcmd nowIV ct tg hiv
    htglen L hctlen hm42 _ rfl
  set P := [0x00, 0x00] ++ (u32be seq ++ (u32be cmd ++ (u32be (L + 28) ++
    (nowIV ++ (ct ++ tg))))) with hP
  have hPlen : P.length = L + 42 := by
    simp only [hP, List.length_append, u32be_length, List.length_cons,
      List.length_nil, hiv, htglen, hctlen]
    omega
  have hlenF : (u32be 0x00006699 ++ ([0x00, 0x00] ++ (u32be seq ++ (u32be cmd ++
      (u32be (L + 28) ++ (nowIV ++ (ct ++ (tg ++ u32be 0x00009966)))))))).length
      = L + 50 := by
    simp only [List.length_append, u32be_length, List.length_cons,
      List.length_nil, hiv, htglen, hctlen]
    omega
  have hpfx : readU32 (u32be 0x00006699 ++ ([0x00, 0x00] ++ (u32be seq ++ (u32be cmd ++
      (u32be (L + 28) ++ (nowIV ++ (ct ++ (tg ++ u32be 0x00009966)))))))) 0
      = .ok 0x00006699 := by
    rw [readU32_append_u32be]
    norm_num
  have hpk : parsePacket pr st (u32be 0x00006699 ++ ([0x00, 0x00] ++ (u32be seq ++
      (u32be cmd ++ (u32be (L + 28) ++ (nowIV ++ (ct ++ (tg ++ u32be 0x00009966))))))))
      = .ok ⟨P, none, some cmd, some seq⟩ := by
    have := parsePacket_eq_ok pr st _ 0x00006699 (P, cmd, seq)
      (by omega) hpfx (Or.inr rfl)
      (by rw [parseSplit_self _ hscan]; exact hbody)
    rw [parseSplit_self _ hscan] at this
    exact this
  have hdrop : payload0.drop 4 = List.replicate 11 0 ++ b := by
    rw [hpay0, hvB]
    simp [List.replicate_succ]
  have hgp : getPayload pr st P = .raw (List.replicate 11 0 ++ b) := by
    unfold getPayload
    rw [if_neg (by omega)]
    have hpost : decryptPost pr st (List.replicate 11 0 ++ b)
        = .raw (List.replicate 11 0 ++ b) := by
      unfold decryptPost
      rw [if_neg (by
        rw [hvB, List.take_append_eq_append_take]
        simp [List.take_replicate])]
      simp only [hnp]
    have hdec : cipherDecrypt pr st P = .ok (.raw (List.replicate 11 0 ++ b)) := by
      rw [cipherDecrypt, hver,
        decrypt35_shape pr st seq cmd L nowIV ct tg hiv htglen hctlen P hP,
        if_pos (by rw [htg, haad]),
        hgdec, jsSliceFrom_drop _ _ (by norm_num) (by omega)]
      rw [show ((4 : Int).toNat) = 4 from rfl, hdrop, hpost]
    rw [hdec]
    simp only
    rw [if_neg (by
      intro hcon
      have := hcon.2
      simp only [decValLength, Option.some.injEq, List.length_append,
        List.length_replicate] at this
      omega)]
  unfold parse
  rw [parseRecursive_ok_none pr st _ [] _ hpk rfl]
  simp only [List.nil_append]
  rw [hgp]

/-- **C1 (amended).** Encode/decode roundtrip per protocol version, for
frames whose suffix marker occurs only at their end.  v3.1 (encrypted),
v3.2/v3.3 (commands 10/18 excepted), and v3.4 (non-discovery,
non-header-exempt commands, ciphertext first word surviving the return-code
probe) roundtrip: the parsed packet's payload is the encoded JSON value
(after the cipher's `data`/`t` envelope normalization for v3.4), and
commandByte/sequenceN match.  For v3.5 the commandByte and sequenceN
roundtrip but the payload does **not**: `_decrypt35` strips 4 plaintext
bytes `_encode35` never wrote, so the packet carries `11 NULs ++ JSON text`
as raw bytes instead of the JSON value. -/
theorem C1_encode_decode_roundtrip (pr : Prims) (laws : PrimLaws pr) :
    (∀ (st : CipherState) (cmd seq : Nat) (j : J) (F : List Nat),
      (st.version = .v32 ∨ st.version = .v33) →
      cmd ∈ commandValues → cmd ≠ 10 → cmd ≠ 18 → seq < 2 ^ 32 → cmd < 2 ^ 32 →
      isBytes (pr.jsonStringify j) → (pr.jsonStringify j).length + 39 < 2 ^ 32 →
      pr.jsonParse (pr.jsonStringify j) = some j →
      encode pr st (.obj j) true cmd seq [] = .ok F →
      suffixScan F = (F.length : Int) - 4 →
      parse pr st F = .ok [⟨.json j, none, some cmd, some seq⟩])
    ∧
    (∀ (st : CipherState) (cmd seq : Nat) (j : J) (F : List Nat),
      st.version = .v31 →
      cmd ∈ commandValues → seq < 2 ^ 32 → cmd < 2 ^ 32 →
      isBytes (pr.jsonStringify j) →
      pr.jsonParse (pr.jsonStringify j) = some j →
      (pr.b64enc (pr.ecbEnc st.getKey (pkcs7pad (pr.jsonStringify j)))).length
        + 27 < 2 ^ 32 →
      encode pr st (.obj j) true cmd seq [] = .ok F →
      suffixScan F = (F.length : Int) - 4 →
      parse pr st F = .ok [⟨.json j, none, some cmd, some seq⟩])
    ∧
    (∀ (st : CipherState) (cmd seq rc : Nat) (j ju : J) (F : List Nat),
      st.version = .v34 →
      cmd ∈ commandValues → ¬(cmd = 0 ∨ cmd = 19 ∨ cmd = 35) → ¬headerExempt cmd →
      seq < 2 ^ 32 → cmd < 2 ^ 32 →
      isBytes (pr.jsonStringify j) → (pr.jsonStringify j).length + 67 < 2 ^ 32 →
      pr.jsonParse (pr.jsonStringify j) = some j →
      unwrapEnvelope j = .ok ju →
      readU32 (pr.ecbEnc st.getKey (pad34 (st.version.bytes ++ List.replicate 12 0 ++
        pr.jsonStringify j))) 0 = .ok rc →
      rc &&& 0xFFFFFF00 ≠ 0 →
      encode pr st (.obj j) true cmd seq [] = .ok F →
      suffixScan F = (F.length : Int) - 4 →
      parse pr st F = .ok [⟨.json ju, none, some cmd, some seq⟩])
    ∧
    (∀ (st : CipherState) (cmd seq : Nat) (j : J) (nowIV F : List Nat),
      st.version = .v35 →
      cmd ∈ commandValues → ¬headerExempt cmd →
      seq < 2 ^ 32 → cmd < 2 ^ 32 →
      isBytes (pr.jsonStringify j) → nowIV.length = 12 →
      (pr.jsonStringify j).length + 57 < 2 ^ 32 →
      pr.jsonParse (List.replicate 11 0 ++ pr.jsonStringify j) = none →
      encode pr st (.obj j) true cmd seq nowIV = .ok F →
      suffixScan F = (F.length : Int) - 4 →
      parse pr st F = .ok [⟨.raw (List.replicate 11 0 ++ pr.jsonStringify j), none,
        some cmd, some seq⟩]) := by
  refine ⟨?_, ?_, ?_, ?_⟩
  · intro st cmd seq j F hver hin h10 h18 hseq hcmd hb hsz hjp hE hscan
    have hF : F = encodePre34 pr st cmd seq true (pr.jsonStringify j) := by
      rcases hver with hv | hv <;>
        simp [encode, hv, hin, encDataBytes, Bind.bind, Except.bind, Pure.pure,
          Except.pure] at hE <;>
        exact hE.symm
    rw [hF] at hscan ⊢
    exact parse_encodePre34_3233 pr laws st cmd seq j hver h10 h18 hseq hcmd hb hsz
      hjp hscan
  · intro st cmd seq j F hver hin hseq hcmd hb hjp hplen hE hscan
    have hF : F = encodePre34 pr st cmd seq true (pr.jsonStringify j) := by
      simp [encode, hver, hin, encDataBytes, Bind.bind, Except.bind, Pure.pure,
        Except.pure] at hE
      exact hE.symm
    rw [hF] at hscan ⊢
    exact parse_encodePre34_31 pr laws st cmd seq j hver hseq hcmd hb hjp hplen hscan
  · intro st cmd seq rc j ju F hver hin hnd hex hseq hcmd hb hsz hjp hunw hrc hmask
      hE hscan
    have hE' : encode34 pr st cmd seq (pr.jsonStringify j) = .ok F := by
      simp [encode, hver, hin, encDataBytes, Bind.bind, Except.bind, Pure.pure,
        Except.pure] at hE
      exact hE
    exact parse_encode34 pr laws st cmd seq rc j ju F hver hnd hex hseq hcmd hb hsz
      hjp hunw hrc hmask hE' hscan
  · intro st cmd seq j nowIV F hver hin hex hseq hcmd hb hiv hsz hnp hE hscan
    have hF : F = encode35 pr st cmd seq (pr.jsonStringify j) nowIV := by
      simp [encode, hver, hin, encDataBytes, Bind.bind, Except.bind, Pure.pure,
        Except.pure] at hE
      exact hE.symm
    rw [hF] at hscan ⊢
    exact parse_encode35 pr laws st cmd seq j nowIV hver hex hseq hcmd hb hiv hsz
      hnp hscan

/-- A v3.3 cipher state with no session key, for witnesses. -/
def st33A : CipherState := ⟨keyA, .v33, none⟩

/-- Concrete encoded frames for the C1 witness, one per version. -/
def C1F33 : List Nat := encodePre34 toyPrims st33A 7 1 true [0x7B]

def C1F31 : List Nat := encodePre34 toyPrims st31A 7 1 true [0x7B]

def C1F34 : List Nat := (encode34 toyPrims st34A 7 1 [0x7B]).toOption.getD []

def C1F35 : List Nat := encode35 toyPrims st35A 7 1 [0x7B] (List.replicate 12 9)

/-- Witness for C1 at concrete frames of each version. -/
theorem C1_encode_decode_roundtrip_witness :
    parse toyPrims st33A C1F33 = .ok [⟨.json jA, none, some 7, some 1⟩]
    ∧ parse toyPrims st31A C1F31 = .ok [⟨.json jA, none, some 7, some 1⟩]
    ∧ parse toyPrims st34A C1F34 = .ok [⟨.json jA, none, some 7, some 1⟩]
    ∧ parse toyPrims st35A C1F35
        = .ok [⟨.raw (List.replicate 11 0 ++ [0x7B]), none, some 7, some 1⟩] := by
  obtain ⟨h33, h31, h34, h35⟩ := C1_encode_decode_roundtrip toyPrims toyPrims_laws
  refine ⟨?_, ?_, ?_, ?_⟩
  · exact h33 st33A 7 1 jA C1F33 (Or.inr rfl) (by decide) (by decide) (by decide)
      (by decide) (by decide) (by decide) (by decide) rfl rfl (by decide)
  · exact h31 st31A 7 1 jA C1F31 rfl (by decide) (by decide) (by decide)
      (by decide) rfl (by decide) rfl (by decide)
  · exact h34 st34A 7 1 0x332E3400 jA jA C1F34 rfl (by decide) (by decide)
      (by decide) (by decide) (by decide) (by decide) (by decide) rfl rfl rfl
      (by decide) rfl (by decide)
  · exact h35 st35A 7 1 jA (List.replicate 12 9) C1F35 rfl (by decide) (by decide)
      (by decide) (by decide) (by decide) (by decide) (by decide) rfl rfl
      (by decide)

/-- The v3.4 discovery-command frame for the C1 counterexample. -/
def C1F34d : List Nat := (encode34 toyPrims st34A 19 1 [0x7B]).toOption.getD []

/-- **C1 counterexample.** The original claim fails twice.  For v3.5 the
encoded JSON payload does not come back: the parsed packet carries
`11 NULs ++ JSON text` as raw bytes (4 plaintext bytes are stripped by
`_decrypt35`), not the JSON value.  And for v3.4 with the known command 19
(`BROADCAST_LPV34`), encode succeeds but decoding fails outright with a CRC
mismatch: discovery commands skip the HMAC branch and hit the CRC check
against the HMAC trailer bytes. -/
theorem C1_counterexample :
    encode toyPrims st35A (.obj jA) true 7 1 (List.replicate 12 9) = .ok C1F35
    ∧ parse toyPrims st35A C1F35
        = .ok [⟨.raw (List.replicate 11 0 ++ [0x7B]), none, some 7, some 1⟩]
    ∧ GPVal.raw (List.replicate 11 0 ++ [0x7B]) ≠ GPVal.json jA
    ∧ encode toyPrims st34A (.obj jA) true 19 1 [] = .ok C1F34d
    ∧ parse toyPrims st34A C1F34d = .error .crcMismatch := by
  refine ⟨rfl, ?_, by simp, rfl, ?_⟩
  · unfold parse parseRecursive
    rfl
  · unfold parse parseRecursive
    rfl

end Tuya
